import Mathlib

/-!
The mutex of libtransistor, `pthread/rthread_mutex.c`.

A shallow embedding of the mutex of `src/pthread/rthread_mutex.c` and a
verification of its specification.

* `pthread_mutex_t *mutexp` is an `Option Handle`: `none` is the null pointer,
  `some none` a handle holding the null (statically initialised) sentinel and
  `some (some m)` a handle pointing at the mutex `m`.
* `pthread_t` values are natural numbers; the `owner` field is an
  `Option Tid`, `none` being `NULL`.
* The blocking primitive (`phal_semaphore_*`) is external.  Every call into it
  is recorded in a trace, and the result of each `phal_semaphore_wait` is read
  from a list supplied by the caller of the model; when the list is exhausted
  the wait never returns.
* The constants of `pthread.h` and `errno.h` are not part of the sources.  They
  are the fields of `Platform`, together with the fact that they are distinct.
* `libtransistor/gpu/nv_ioc.h` contributes the six nvmap opcodes and the
  member lists of their argument structures.
* The functions are embedded twice.  The first embedding takes a call as one
  function from the mutex before to the mutex after (no other thread runs in
  between).  The second, `threadStep`, cuts the same code into its accesses to
  the shared mutex, so that the calls of several threads can interleave; the
  last section shows that a thread running alone under `threadStep` ends as
  the functions say.
-/

namespace Rthread

/-! ## Constants -/

/-- States defined in "Futexes Are Tricky" 5.2 (lines 32-36). -/
def UNLOCKED : Int := 0

/-- Locked without waiter. -/
def LOCKED : Int := 1

/-- Threads waiting for this mutex. -/
def CONTENDED : Int := 2

/-- Bound of the spin phase (line 38). -/
def SPIN_COUNT : Nat := 128

/-- Largest value of a C `int` (`limits.h`). -/
def INT_MAX : Int := 2147483647

/-- Two's complement wrap-around of a C `int`, as performed by the atomic
read-modify-write operations. -/
def wrapInt (x : Int) : Int := (x + 2147483648) % 4294967296 - 2147483648

/-- The constants of `pthread.h` and `errno.h` used by `rthread_mutex.c`.  The
headers are not among the sources, so the values are parameters; the only facts
used are that the four mutex types are pairwise distinct and that the error
numbers are pairwise distinct and non-zero. -/
structure Platform where
  PTHREAD_MUTEX_ERRORCHECK : Int
  PTHREAD_MUTEX_RECURSIVE : Int
  PTHREAD_MUTEX_NORMAL : Int
  PTHREAD_MUTEX_STRICT_NP : Int
  PTHREAD_MUTEX_DEFAULT : Int
  PTHREAD_PRIO_PROTECT : Int
  EPERM : Int
  EAGAIN : Int
  ENOMEM : Int
  EBUSY : Int
  EINVAL : Int
  EDEADLK : Int
  ETIMEDOUT : Int
  types_distinct :
    [PTHREAD_MUTEX_ERRORCHECK, PTHREAD_MUTEX_RECURSIVE, PTHREAD_MUTEX_NORMAL,
      PTHREAD_MUTEX_STRICT_NP].Nodup
  errno_distinct : [0, EPERM, EAGAIN, ENOMEM, EBUSY, EINVAL, EDEADLK, ETIMEDOUT].Nodup

/-- A concrete platform: the mutex types as numbered by OpenBSD's `pthread.h`
(from which the file is taken) and the error numbers of newlib's `errno.h`. -/
def samplePlatform : Platform where
  PTHREAD_MUTEX_ERRORCHECK := 1
  PTHREAD_MUTEX_RECURSIVE := 2
  PTHREAD_MUTEX_NORMAL := 3
  PTHREAD_MUTEX_STRICT_NP := 4
  PTHREAD_MUTEX_DEFAULT := 3
  PTHREAD_PRIO_PROTECT := 2
  EPERM := 1
  EAGAIN := 11
  ENOMEM := 12
  EBUSY := 16
  EINVAL := 22
  EDEADLK := 45
  ETIMEDOUT := 116
  types_distinct := by decide
  errno_distinct := by decide

/-! ## Data model -/

/-- Thread identities (`pthread_t`, the value of `pthread_self()`). -/
abbrev Tid := Nat

/-- The absolute deadline `struct timespec`. -/
structure timespec where
  tv_sec : Int
  tv_nsec : Int
deriving DecidableEq, Repr

/-- The fields of `struct pthread_mutex` read or written by the file.  The
semaphore `sem` is external: calls on it are recorded as `SemCall`s. -/
structure pthread_mutex where
  lock : Int
  owner : Option Tid
  count : Int
  type : Int
  prioceiling : Int
deriving DecidableEq, Repr

/-- The fields of `struct pthread_mutex_attr` read by `pthread_mutex_init`. -/
structure pthread_mutex_attr where
  ma_type : Int
  ma_protocol : Int
  ma_prioceiling : Int
deriving DecidableEq, Repr

/-- The contents of a `pthread_mutex_t`: `none` is `NULL`. -/
abbrev Handle := Option pthread_mutex

/-- A call into the blocking primitive. -/
inductive SemCall
  | lock
  | wait (abs : Option timespec)
  | signal
  | unlock
deriving DecidableEq, Repr

/-- How a call ends: it returns a code, it calls `abort()`, it never comes back
from `phal_semaphore_wait`, or it dereferences a null pointer. -/
inductive Outcome
  | ret (code : Int)
  | abort
  | blocked
  | fault
deriving DecidableEq, Repr

/-- What a call on a handle has done when it ends. -/
structure Result where
  outcome : Outcome
  mutexp : Option Handle
  sem : List SemCall
  spins : Nat
deriving DecidableEq, Repr

/-- What `_rthread_mutex_trylock` has done when it ends; `waits` are the wait
results not yet consumed. -/
structure TryResult where
  outcome : Outcome
  mutex : pthread_mutex
  sem : List SemCall
  waits : List Int
deriving DecidableEq, Repr

/-! ## Atomic operations (C11 `stdatomic.h`) -/

/-- The call `atomic_compare_exchange_strong(&obj, &expected, desired)`: the
success flag, the new value of `obj` and the new value of `expected`. -/
def atomic_compare_exchange_strong (obj expected desired : Int) : Bool × Int × Int :=
  if obj = expected then (true, desired, expected) else (false, obj, obj)

/-- The call `atomic_exchange(&obj, desired)`: the value returned and the new
value of `obj`. -/
def atomic_exchange (obj desired : Int) : Int × Int := (obj, desired)

/-- The call `atomic_fetch_sub(&obj, arg)`: the value returned and the new value
of `obj`. -/
def atomic_fetch_sub (obj arg : Int) : Int × Int := (obj, wrapInt (obj - arg))

/-! ## The functions of `rthread_mutex.c` -/

/-- The function `pthread_mutex_init` (lines 47-68) on a non-null `mutexp`:
the code returned and the new contents of `*mutexp`.  `calloc_ok` tells whether
`calloc` succeeds; the block it returns is zero-filled. -/
def pthread_mutex_init (P : Platform) (calloc_ok : Bool) (old : Handle)
    (attr : Option pthread_mutex_attr) : Int × Handle :=
  if !calloc_ok then (P.ENOMEM, old)
  else
    let mutex : pthread_mutex :=
      { lock := 0, owner := none, count := 0, type := 0, prioceiling := 0 }
    let mutex :=
      match attr with
      | none => { mutex with type := P.PTHREAD_MUTEX_DEFAULT, prioceiling := -1 }
      | some a =>
        { mutex with
          type := a.ma_type
          prioceiling := if a.ma_protocol = P.PTHREAD_PRIO_PROTECT then a.ma_prioceiling else -1 }
    (0, some mutex)

/-- The function `pthread_mutex_destroy` (lines 70-91): the code returned and
the handle afterwards.  The message written to file descriptor 2 on the busy
path and the `free` are not part of the state. -/
def pthread_mutex_destroy (P : Platform) (mutexp : Option Handle) : Int × Option Handle :=
  match mutexp with
  | none => (P.EINVAL, none)
  | some none => (P.EINVAL, some none)
  | some (some mutex) =>
    if mutex.lock ≠ UNLOCKED then (P.EBUSY, some (some mutex))
    else (0, some none)

/-- The function `_rthread_mutex_trylock` (lines 93-132), called by `self`. -/
def _rthread_mutex_trylock (P : Platform) (self : Tid) (mutex : pthread_mutex)
    (trywait : Bool) (abs : Option timespec) (waits : List Int) : TryResult :=
  let unlocked := UNLOCKED
  match atomic_compare_exchange_strong mutex.lock unlocked LOCKED with
  | (true, lock, _) =>
    { outcome := .ret 0, mutex := { mutex with lock := lock, owner := some self },
      sem := [], waits := waits }
  | (false, lock, _) =>
    let mutex := { mutex with lock := lock }
    if mutex.owner = some self then
      let type := mutex.type
      if type ≠ P.PTHREAD_MUTEX_RECURSIVE then
        if trywait ∨ type = P.PTHREAD_MUTEX_ERRORCHECK then
          { outcome := .ret (if trywait then P.EBUSY else P.EDEADLK), mutex := mutex,
            sem := [], waits := waits }
        else if type = P.PTHREAD_MUTEX_STRICT_NP ∧ abs = none then
          { outcome := .abort, mutex := mutex, sem := [], waits := waits }
        else
          match waits with
          | [] =>
            { outcome := .blocked, mutex := mutex, sem := [.lock, .wait abs], waits := [] }
          | _ :: rest =>
            { outcome := .ret P.ETIMEDOUT, mutex := mutex,
              sem := [.lock, .wait abs, .unlock], waits := rest }
      else
        if mutex.count = INT_MAX then
          { outcome := .ret P.EAGAIN, mutex := mutex, sem := [], waits := waits }
        else
          { outcome := .ret 0, mutex := { mutex with count := mutex.count + 1 },
            sem := [], waits := waits }
    else
      { outcome := .ret P.EBUSY, mutex := mutex, sem := [], waits := waits }

/-- The spin phase (lines 171-176): the number of `SPIN_WAIT()`s executed by
the loop when `n` iterations remain and the lock word reads `lock`. -/
def spinLoop (lock : Int) : Nat → Nat
  | 0 => 0
  | n + 1 => if lock = UNLOCKED then 0 else spinLoop lock n + 1

/-- The loop `while (lock != UNLOCKED)` (lines 192-208) and the two statements
after it, entered with `lock` as the last value read from the lock word and
`sem` the calls made so far. -/
def waitLoop (P : Platform) (self : Tid) (abs : Option timespec) (spins : Nat) :
    pthread_mutex → Int → List SemCall → List Int → Result
  | mutex, lock, sem, [] =>
    if lock ≠ UNLOCKED then
      { outcome := .blocked, mutexp := some (some mutex),
        sem := sem ++ [.lock, .wait abs], spins := spins }
    else
      { outcome := .ret 0, mutexp := some (some { mutex with owner := some self }),
        sem := sem, spins := spins }
  | mutex, lock, sem, error :: rest =>
    if lock ≠ UNLOCKED then
      let sem := sem ++ [.lock, .wait abs, .unlock]
      if error = P.ETIMEDOUT then
        { outcome := .ret error, mutexp := some (some mutex), sem := sem, spins := spins }
      else
        match atomic_exchange mutex.lock CONTENDED with
        | (lock, word) => waitLoop P self abs spins { mutex with lock := word } lock sem rest
    else
      { outcome := .ret 0, mutexp := some (some { mutex with owner := some self }),
        sem := sem, spins := spins }

/-- Lines 161-213 of `_rthread_mutex_timedlock`: the part after the lazy
construction, on the mutex `*mutexp`. -/
def timedlockBody (P : Platform) (self : Tid) (mutex : pthread_mutex) (trywait : Bool)
    (abs : Option timespec) (waits : List Int) : Result :=
  let r := _rthread_mutex_trylock P self mutex trywait abs waits
  match r.outcome with
  | .ret error =>
    if error ≠ P.EBUSY ∨ trywait then
      { outcome := .ret error, mutexp := some (some r.mutex), sem := r.sem, spins := 0 }
    else
      let mutex := r.mutex
      let spins := spinLoop mutex.lock SPIN_COUNT
      let lock := UNLOCKED
      match atomic_compare_exchange_strong mutex.lock lock LOCKED with
      | (_, word, lock) =>
        let mutex := { mutex with lock := word }
        if lock = UNLOCKED then
          { outcome := .ret 0, mutexp := some (some { mutex with owner := some self }),
            sem := r.sem, spins := spins }
        else
          if lock ≠ CONTENDED then
            match atomic_exchange mutex.lock CONTENDED with
            | (lock, word) =>
              waitLoop P self abs spins { mutex with lock := word } lock r.sem r.waits
          else
            waitLoop P self abs spins mutex lock r.sem r.waits
  | o => { outcome := o, mutexp := some (some r.mutex), sem := r.sem, spins := 0 }

/-- The function `_rthread_mutex_timedlock` (lines 134-214), called by `self`.
`calloc_ok` tells whether the allocation of the lazy construction succeeds and
`waits` lists the results of the successive `phal_semaphore_wait` calls.  The
static-init spinlock is free on entry and released before line 157, and
`_rthread_debug` only logs: neither is part of the state. -/
def _rthread_mutex_timedlock (P : Platform) (self : Tid) (calloc_ok : Bool)
    (mutexp : Option Handle) (trywait : Bool) (abs : Option timespec) (_timed : Bool)
    (waits : List Int) : Result :=
  match mutexp with
  | none => { outcome := .ret P.EINVAL, mutexp := none, sem := [], spins := 0 }
  | some (some mutex) => timedlockBody P self mutex trywait abs waits
  | some none =>
    let (error, handle) := pthread_mutex_init P calloc_ok none none
    if error ≠ 0 then
      { outcome := .ret P.EINVAL, mutexp := some handle, sem := [], spins := 0 }
    else
      match handle with
      | none => { outcome := .fault, mutexp := some handle, sem := [], spins := 0 }
      | some mutex => timedlockBody P self mutex trywait abs waits

/-- The function `pthread_mutex_trylock` (lines 216-220). -/
def pthread_mutex_trylock (P : Platform) (self : Tid) (calloc_ok : Bool)
    (mutexp : Option Handle) (waits : List Int) : Result :=
  _rthread_mutex_timedlock P self calloc_ok mutexp true none false waits

/-- The function `pthread_mutex_timedlock` (lines 222-226). -/
def pthread_mutex_timedlock (P : Platform) (self : Tid) (calloc_ok : Bool)
    (mutexp : Option Handle) (abs : Option timespec) (waits : List Int) : Result :=
  _rthread_mutex_timedlock P self calloc_ok mutexp false abs true waits

/-- The function `pthread_mutex_lock` (lines 228-232). -/
def pthread_mutex_lock (P : Platform) (self : Tid) (calloc_ok : Bool)
    (mutexp : Option Handle) (waits : List Int) : Result :=
  _rthread_mutex_timedlock P self calloc_ok mutexp false none false waits

/-- The function `pthread_mutex_unlock` (lines 234-296), called by `self`. -/
def pthread_mutex_unlock (P : Platform) (self : Tid) (mutexp : Option Handle) : Result :=
  match mutexp with
  | none => { outcome := .ret P.EINVAL, mutexp := none, sem := [], spins := 0 }
  | some none =>
    if P.PTHREAD_MUTEX_DEFAULT = P.PTHREAD_MUTEX_ERRORCHECK then
      { outcome := .ret P.EPERM, mutexp := some none, sem := [], spins := 0 }
    else if P.PTHREAD_MUTEX_DEFAULT = P.PTHREAD_MUTEX_NORMAL then
      { outcome := .ret 0, mutexp := some none, sem := [], spins := 0 }
    else
      { outcome := .abort, mutexp := some none, sem := [], spins := 0 }
  | some (some mutex) =>
    if mutex.owner ≠ some self then
      if mutex.type = P.PTHREAD_MUTEX_ERRORCHECK ∨ mutex.type = P.PTHREAD_MUTEX_RECURSIVE then
        { outcome := .ret P.EPERM, mutexp := some (some mutex), sem := [], spins := 0 }
      else
        if mutex.owner = none ∧ mutex.type = P.PTHREAD_MUTEX_NORMAL then
          { outcome := .ret 0, mutexp := some (some mutex), sem := [], spins := 0 }
        else
          { outcome := .abort, mutexp := some (some mutex), sem := [], spins := 0 }
    else if mutex.type = P.PTHREAD_MUTEX_RECURSIVE ∧ mutex.count > 0 then
      { outcome := .ret 0, mutexp := some (some { mutex with count := mutex.count - 1 }),
        sem := [], spins := 0 }
    else
      let mutex := { mutex with owner := none }
      match atomic_fetch_sub mutex.lock 1 with
      | (old, word) =>
        let mutex := { mutex with lock := word }
        if old ≠ UNLOCKED + 1 then
          { outcome := .ret 0, mutexp := some (some { mutex with lock := UNLOCKED }),
            sem := [.lock, .signal, .unlock], spins := 0 }
        else
          { outcome := .ret 0, mutexp := some (some mutex), sem := [], spins := 0 }


/-! ## Sequences of calls -/

/-- The semaphore calls of `n` successive waits of the blocking loop. -/
def waitCalls (abs : Option timespec) : Nat → List SemCall
  | 0 => []
  | n + 1 => [.lock, .wait abs, .unlock] ++ waitCalls abs n

/-- `n` consecutive `pthread_mutex_lock` calls by thread `t` on one handle: the
handle afterwards and the outcomes of the calls, in order. -/
def repeatLock (P : Platform) (t : Tid) (calloc_ok : Bool) (waits : List Int) :
    Nat → Option Handle → Option Handle × List Outcome
  | 0, h => (h, [])
  | n + 1, h =>
    let r := pthread_mutex_lock P t calloc_ok h waits
    ((repeatLock P t calloc_ok waits n r.mutexp).1,
      r.outcome :: (repeatLock P t calloc_ok waits n r.mutexp).2)

/-- `n` consecutive `pthread_mutex_unlock` calls by thread `t` on one handle:
the handle afterwards and the outcomes of the calls, in order. -/
def repeatUnlock (P : Platform) (t : Tid) : Nat → Option Handle → Option Handle × List Outcome
  | 0, h => (h, [])
  | n + 1, h =>
    let r := pthread_mutex_unlock P t h
    ((repeatUnlock P t n r.mutexp).1, r.outcome :: (repeatUnlock P t n r.mutexp).2)

/-! ## Interleaved execution

Several threads run calls on one constructed mutex.  A step of the system is
one step of one thread; each step makes at most one access to the shared mutex
(one atomic operation on the lock word, or one read or write of `owner` or
`count`; `type` never changes and is read together with the neighbouring
access), and steps of different threads interleave in any order (sequentially
consistent memory).  A wait on the semaphore may return at any time with any
result, which covers every behaviour of the blocking primitive. -/

/-- The program points of a thread.  `trywait` and `abs` are the arguments of
the running `_rthread_mutex_timedlock`. -/
inductive Pc
  /-- Outside any call on the mutex. -/
  | idle
  /-- Line 99: the compare-exchange of `_rthread_mutex_trylock`. -/
  | tryCas (trywait : Bool) (abs : Option timespec)
  /-- Line 102: `mutex->owner = self` after the compare-exchange succeeded. -/
  | trySetOwner (trywait : Bool) (abs : Option timespec)
  /-- Line 106: the read of `mutex->owner`. -/
  | tryReadOwner (trywait : Bool) (abs : Option timespec)
  /-- Lines 107-116: the caller is the owner; the decision on `mutex->type`. -/
  | tryReadType (trywait : Bool) (abs : Option timespec)
  /-- Lines 119-121: the wait of the self-deadlock. -/
  | trySelfWait (trywait : Bool) (abs : Option timespec)
  /-- Line 124: the read of `mutex->count`. -/
  | tryReadCount (trywait : Bool) (abs : Option timespec)
  /-- Line 126: `mutex->count++`. -/
  | tryIncCount (trywait : Bool) (abs : Option timespec)
  /-- Lines 171-176: iteration `i` of the spin loop. -/
  | spin (abs : Option timespec) (i : Nat)
  /-- Line 179: the compare-exchange after the spin phase. -/
  | cas (abs : Option timespec)
  /-- Line 189: the exchange that marks the mutex contended. -/
  | xchg (abs : Option timespec)
  /-- Lines 198-200: the wait of the blocking loop. -/
  | semWait (abs : Option timespec)
  /-- Line 207: the exchange after a wake-up. -/
  | reXchg (abs : Option timespec)
  /-- Line 183: `mutex->owner = self` after the second compare-exchange
  succeeded. -/
  | setOwner
  /-- Line 212: `mutex->owner = self` after the blocking loop, which ends when
  an exchange returns `UNLOCKED`. -/
  | loopSetOwner
  /-- The lock, trylock or timedlock call returns `code`. -/
  | retLock (code : Int)
  /-- Line 256: the read of `mutex->owner` in `pthread_mutex_unlock`. -/
  | unReadOwner
  /-- Line 269: the second read of `mutex->owner`. -/
  | unReadOwner2
  /-- Line 279: the read of `mutex->count`. -/
  | unReadCount
  /-- Line 280: `mutex->count--`. -/
  | unDecCount
  /-- Line 285: `mutex->owner = NULL`. -/
  | unClearOwner
  /-- Line 288: the atomic decrement of the lock word. -/
  | unFetchSub
  /-- Line 289: `mutex->lock = UNLOCKED`. -/
  | unStore
  /-- Lines 290-292: the signal. -/
  | unSignal
  /-- The unlock call returns `code`. -/
  | retUnlock (code : Int)
deriving DecidableEq, Repr

/-- The calls a thread can make on the mutex. -/
inductive Call
  | lock
  | trylock
  | timedlock (abs : Option timespec)
  | unlock
deriving DecidableEq, Repr

/-- What the environment contributes to a step: the call an idle thread makes,
the result of a `phal_semaphore_wait`, or nothing. -/
inductive Action
  | call (c : Call)
  | wait (error : Int)
  | tau
deriving DecidableEq, Repr

/-- A thread: its program point, and the bookkeeping flag `owns`, which is set
by the atomic operation that takes the lock word from `UNLOCKED` and cleared by
the write that brings the lock word back to `UNLOCKED`.  The flag is not read
by the code. -/
structure Thr where
  pc : Pc
  owns : Bool
deriving DecidableEq, Repr

/-- The system: the shared mutex, the threads, and whether `abort()` has ended
the process. -/
structure Sys where
  mutex : pthread_mutex
  thr : Tid → Thr
  aborted : Bool

/-- Line 167 to 171: what `_rthread_mutex_timedlock` does with the result of
`_rthread_mutex_trylock`. -/
def afterTrylock (P : Platform) (trywait : Bool) (abs : Option timespec) (error : Int) : Pc :=
  if error ≠ P.EBUSY ∨ trywait then .retLock error else .spin abs 0

/-- Line 192: the test of the loop `while (lock != UNLOCKED)`. -/
def loopHead (abs : Option timespec) (lock : Int) : Pc :=
  if lock ≠ UNLOCKED then .semWait abs else .loopSetOwner

/-- One step of thread `t`, in program state `th`, on the mutex `m`: the new
mutex, the new state of the thread, and whether the step is `abort()`.  The
result is `none` when the action does not fit the program point. -/
def threadStep (P : Platform) (t : Tid) (m : pthread_mutex) (th : Thr) :
    Action → Option (pthread_mutex × Thr × Bool)
  | .call c =>
    match th.pc, c with
    | .idle, .lock => some (m, { th with pc := .tryCas false none }, false)
    | .idle, .trylock => some (m, { th with pc := .tryCas true none }, false)
    | .idle, .timedlock abs => some (m, { th with pc := .tryCas false abs }, false)
    | .idle, .unlock => some (m, { th with pc := .unReadOwner }, false)
    | _, _ => none
  | .wait error =>
    match th.pc with
    | .trySelfWait trywait abs =>
      some (m, { th with pc := afterTrylock P trywait abs P.ETIMEDOUT }, false)
    | .semWait abs =>
      if error = P.ETIMEDOUT then some (m, { th with pc := .retLock error }, false)
      else some (m, { th with pc := .reXchg abs }, false)
    | _ => none
  | .tau =>
    match th.pc with
    | .idle => none
    | .trySelfWait _ _ => none
    | .semWait _ => none
    | .tryCas trywait abs =>
      match atomic_compare_exchange_strong m.lock UNLOCKED LOCKED with
      | (true, word, _) =>
        some ({ m with lock := word }, { pc := .trySetOwner trywait abs, owns := true }, false)
      | (false, word, _) =>
        some ({ m with lock := word }, { th with pc := .tryReadOwner trywait abs }, false)
    | .trySetOwner trywait abs =>
      some ({ m with owner := some t }, { th with pc := afterTrylock P trywait abs 0 }, false)
    | .tryReadOwner trywait abs =>
      if m.owner = some t then some (m, { th with pc := .tryReadType trywait abs }, false)
      else some (m, { th with pc := afterTrylock P trywait abs P.EBUSY }, false)
    | .tryReadType trywait abs =>
      let type := m.type
      if type ≠ P.PTHREAD_MUTEX_RECURSIVE then
        if trywait ∨ type = P.PTHREAD_MUTEX_ERRORCHECK then
          some (m, { th with pc := afterTrylock P trywait abs
                                     (if trywait then P.EBUSY else P.EDEADLK) }, false)
        else if type = P.PTHREAD_MUTEX_STRICT_NP ∧ abs = none then
          some (m, th, true)
        else
          some (m, { th with pc := .trySelfWait trywait abs }, false)
      else
        some (m, { th with pc := .tryReadCount trywait abs }, false)
    | .tryReadCount trywait abs =>
      if m.count = INT_MAX then
        some (m, { th with pc := afterTrylock P trywait abs P.EAGAIN }, false)
      else some (m, { th with pc := .tryIncCount trywait abs }, false)
    | .tryIncCount trywait abs =>
      some ({ m with count := m.count + 1 }, { th with pc := afterTrylock P trywait abs 0 },
        false)
    | .spin abs i =>
      if i < SPIN_COUNT then
        if m.lock = UNLOCKED then some (m, { th with pc := .cas abs }, false)
        else some (m, { th with pc := .spin abs (i + 1) }, false)
      else some (m, { th with pc := .cas abs }, false)
    | .cas abs =>
      match atomic_compare_exchange_strong m.lock UNLOCKED LOCKED with
      | (_, word, lock) =>
        if lock = UNLOCKED then
          some ({ m with lock := word }, { pc := .setOwner, owns := true }, false)
        else if lock ≠ CONTENDED then
          some ({ m with lock := word }, { th with pc := .xchg abs }, false)
        else
          some ({ m with lock := word }, { th with pc := loopHead abs lock }, false)
    | .xchg abs =>
      match atomic_exchange m.lock CONTENDED with
      | (lock, word) =>
        some ({ m with lock := word },
          { pc := loopHead abs lock, owns := if lock = UNLOCKED then true else th.owns }, false)
    | .reXchg abs =>
      match atomic_exchange m.lock CONTENDED with
      | (lock, word) =>
        some ({ m with lock := word },
          { pc := loopHead abs lock, owns := if lock = UNLOCKED then true else th.owns }, false)
    | .setOwner => some ({ m with owner := some t }, { th with pc := .retLock 0 }, false)
    | .loopSetOwner => some ({ m with owner := some t }, { th with pc := .retLock 0 }, false)
    | .retLock _ => some (m, { th with pc := .idle }, false)
    | .unReadOwner =>
      if m.owner ≠ some t then
        if m.type = P.PTHREAD_MUTEX_ERRORCHECK ∨ m.type = P.PTHREAD_MUTEX_RECURSIVE then
          some (m, { th with pc := .retUnlock P.EPERM }, false)
        else some (m, { th with pc := .unReadOwner2 }, false)
      else if m.type = P.PTHREAD_MUTEX_RECURSIVE then
        some (m, { th with pc := .unReadCount }, false)
      else some (m, { th with pc := .unClearOwner }, false)
    | .unReadOwner2 =>
      if m.owner = none ∧ m.type = P.PTHREAD_MUTEX_NORMAL then
        some (m, { th with pc := .retUnlock 0 }, false)
      else some (m, th, true)
    | .unReadCount =>
      if m.count > 0 then some (m, { th with pc := .unDecCount }, false)
      else some (m, { th with pc := .unClearOwner }, false)
    | .unDecCount =>
      some ({ m with count := m.count - 1 }, { th with pc := .retUnlock 0 }, false)
    | .unClearOwner => some ({ m with owner := none }, { th with pc := .unFetchSub }, false)
    | .unFetchSub =>
      match atomic_fetch_sub m.lock 1 with
      | (old, word) =>
        if old ≠ UNLOCKED + 1 then
          some ({ m with lock := word }, { th with pc := .unStore }, false)
        else
          some ({ m with lock := word }, { pc := .retUnlock 0, owns := false }, false)
    | .unStore => some ({ m with lock := UNLOCKED }, { pc := .unSignal, owns := false }, false)
    | .unSignal => some (m, { th with pc := .retUnlock 0 }, false)
    | .retUnlock _ => some (m, { th with pc := .idle }, false)

/-- One step of the system: thread `t` takes a step, unless the process has
aborted. -/
def step (P : Platform) (t : Tid) (a : Action) (s : Sys) : Option Sys :=
  if s.aborted then none
  else
    match threadStep P t s.mutex (s.thr t) a with
    | none => none
    | some (m, th, ab) =>
      some { mutex := m, thr := Function.update s.thr t th, aborted := ab }

/-- The system around a mutex on which no call has been made yet. -/
def initSys (m : pthread_mutex) : Sys :=
  { mutex := m, thr := fun _ => { pc := .idle, owns := false }, aborted := false }

/-- The states the system reaches from the mutex `m0` by steps of any threads
in any order. -/
inductive Reachable (P : Platform) (m0 : pthread_mutex) : Sys → Prop
  | init : Reachable P m0 (initSys m0)
  | step (s s2 : Sys) (t : Tid) (a : Action) :
      Reachable P m0 s → step P t a s = some s2 → Reachable P m0 s2

/-- What is known of thread `t` at its program point: it owns the mutex when it
has just taken the lock word, when it found itself to be the owner, and until
its release; once it has cleared `owner`, the field does not name it. -/
def pcOK (m : pthread_mutex) (t : Tid) (th : Thr) : Prop :=
  match th.pc with
  | .trySetOwner _ _ => th.owns = true
  | .setOwner => th.owns = true
  | .loopSetOwner => th.owns = true
  | .tryReadType _ _ => th.owns = true
  | .trySelfWait _ _ => th.owns = true
  | .tryReadCount _ _ => th.owns = true
  | .tryIncCount _ _ => th.owns = true
  | .retLock code => code = 0 → th.owns = true
  | .unReadCount => th.owns = true
  | .unDecCount => th.owns = true
  | .unClearOwner => th.owns = true
  | .unFetchSub => th.owns = true ∧ m.owner ≠ some t
  | .unStore => th.owns = true ∧ m.owner ≠ some t
  | _ => True

/-- What one step of thread `t`, from mutex `m` and thread state `th` to `m2`
and `th2`, guarantees under the invariant: it keeps the lock word in range and
`pcOK`; the thread owns only a mutex that is not `UNLOCKED`; it starts owning
only from `UNLOCKED`, and stops owning only by the release of
`pthread_mutex_unlock`; only an owner brings the lock word to `UNLOCKED`; and
the step never writes another thread into `owner`. -/
def StepOK (t : Tid) (m : pthread_mutex) (th : Thr) (m2 : pthread_mutex) (th2 : Thr) : Prop :=
  (m2.lock = UNLOCKED ∨ m2.lock = LOCKED ∨ m2.lock = CONTENDED) ∧
  pcOK m2 t th2 ∧
  (th2.owns = true → m2.lock ≠ UNLOCKED) ∧
  (m2.owner = some t → th2.owns = true) ∧
  (th2.owns = true → th.owns = false → m.lock = UNLOCKED) ∧
  (m2.lock = UNLOCKED → m.lock = UNLOCKED ∨ th.owns = true) ∧
  (∀ u, u ≠ t → m2.owner = some u → m.owner = some u) ∧
  (th.owns = true → th2.owns = false →
    m2.lock = UNLOCKED ∧ (th.pc = .unFetchSub ∨ th.pc = .unStore))

/-- The invariant of the interleaved execution. -/
def Inv (s : Sys) : Prop :=
  (s.mutex.lock = UNLOCKED ∨ s.mutex.lock = LOCKED ∨ s.mutex.lock = CONTENDED) ∧
  (∀ t u, (s.thr t).owns = true → (s.thr u).owns = true → t = u) ∧
  (s.mutex.lock = UNLOCKED → ∀ t, (s.thr t).owns = false) ∧
  (∀ t, s.mutex.owner = some t → (s.thr t).owns = true) ∧
  (∀ t, pcOK s.mutex t (s.thr t))

/-- The system after the steps of a schedule, a list of threads with the
action each one takes; `none` when some step is not possible. -/
def runSchedule (P : Platform) : List (Tid × Action) → Sys → Option Sys
  | [], s => some s
  | (t, a) :: rest, s =>
    match step P t a s with
    | none => none
    | some s2 => runSchedule P rest s2

/-- A NORMAL mutex as `pthread_mutex_init` creates it on `samplePlatform`. -/
def sampleMutex : pthread_mutex :=
  { lock := 0, owner := none, count := 0, type := 3, prioceiling := -1 }

/-- A schedule: thread 1 locks the mutex and is about to return; thread 2 then
calls lock, fails the first compare-exchange, spins `SPIN_COUNT` times, fails
the second compare-exchange and marks the mutex contended. -/
def sampleSchedule : List (Tid × Action) :=
  [(1, .call .lock), (1, .tau), (1, .tau), (2, .call .lock), (2, .tau), (2, .tau)] ++
    List.replicate 129 (2, .tau) ++ [(2, .tau), (2, .tau)]

/-- The state the sample schedule leads to. -/
def sampleRun : Sys :=
  (runSchedule samplePlatform sampleSchedule (initSys sampleMutex)).getD (initSys sampleMutex)

/-- A thread running alone: `n` steps of thread `t` from program point `th.pc`
with no step of any other thread in between, the waits taking their results
from `waits`.  The run ends when the call returns, aborts, or waits with no
result left; `none` when `n` steps do not suffice. -/
def soloRun (P : Platform) (t : Tid) :
    Nat → pthread_mutex → Thr → List Int → Option (Outcome × pthread_mutex)
  | 0, _, _, _ => none
  | n + 1, m, th, waits =>
    match th.pc with
    | .retLock code => some (.ret code, m)
    | .retUnlock code => some (.ret code, m)
    | .trySelfWait _ _ =>
      match waits with
      | [] => some (.blocked, m)
      | e :: rest =>
        match threadStep P t m th (.wait e) with
        | none => none
        | some (m2, th2, ab) => if ab then some (.abort, m2) else soloRun P t n m2 th2 rest
    | .semWait _ =>
      match waits with
      | [] => some (.blocked, m)
      | e :: rest =>
        match threadStep P t m th (.wait e) with
        | none => none
        | some (m2, th2, ab) => if ab then some (.abort, m2) else soloRun P t n m2 th2 rest
    | _ =>
      match threadStep P t m th .tau with
      | none => none
      | some (m2, th2, ab) => if ab then some (.abort, m2) else soloRun P t n m2 th2 waits

/-- Thread `t`, running alone from `th` on `m` with wait results `waits`,
ends with the outcome and the mutex `r`. -/
def soloReaches (P : Platform) (t : Tid) (m : pthread_mutex) (th : Thr) (waits : List Int)
    (r : Outcome × pthread_mutex) : Prop :=
  ∃ n, soloRun P t n m th waits = some r

/-! ## Defaults, sequences of whole calls, and the blocking path -/

/-- Modelled from the spec: the value of the macro `PTHREAD_MUTEX_DEFAULT`,
which `pthread.h` defines and the sources do not contain.  The spec gives the
default type as NORMAL ("attributes default to `NORMAL`"). -/
def defaultIsNormal (P : Platform) : Prop :=
  P.PTHREAD_MUTEX_DEFAULT = P.PTHREAD_MUTEX_NORMAL

/-- One whole call of thread `t` on the constructed mutex `m`. -/
def runCall (P : Platform) (t : Tid) (calloc_ok : Bool) (c : Call) (m : pthread_mutex)
    (waits : List Int) : Result :=
  match c with
  | .lock => pthread_mutex_lock P t calloc_ok (some (some m)) waits
  | .trylock => pthread_mutex_trylock P t calloc_ok (some (some m)) waits
  | .timedlock abs => pthread_mutex_timedlock P t calloc_ok (some (some m)) abs waits
  | .unlock => pthread_mutex_unlock P t (some (some m))

/-- The mutex states reached from `m0` by finitely many calls, each one run as
a whole, made by any threads with any wait results; only calls that return a
code (that neither abort nor wait for ever) lead to a new state. -/
inductive CallReachable (P : Platform) (m0 : pthread_mutex) : pthread_mutex → Prop
  | init : CallReachable P m0 m0
  | call (m m2 : pthread_mutex) (t : Tid) (calloc_ok : Bool) (c : Call) (waits : List Int)
      (code : Int) :
      CallReachable P m0 m →
      (runCall P t calloc_ok c m waits).outcome = .ret code →
      (runCall P t calloc_ok c m waits).mutexp = some (some m2) →
      CallReachable P m0 m2

/-- The state invariant of the mutex: the lock word is one of the three
states, there is an owner only when the lock word is not `UNLOCKED`, and the
count is non-negative and within the range of `int`. -/
def callInv (m : pthread_mutex) : Prop :=
  (m.lock = UNLOCKED ∨ m.lock = LOCKED ∨ m.lock = CONTENDED) ∧
  (m.owner ≠ none → m.lock ≠ UNLOCKED) ∧
  0 ≤ m.count ∧ m.count ≤ INT_MAX

/-- In the interleaved execution, a thread that left the blocking loop and is
about to record itself as owner (line 212) sees the lock word `CONTENDED`. -/
def wokenOK (s : Sys) : Prop :=
  ∀ t, (s.thr t).pc = .loopSetOwner → s.mutex.lock = CONTENDED

/-- A schedule that continues `sampleSchedule`: thread 1 returns from lock and
runs a whole unlock, which finds the lock word `CONTENDED`, stores `UNLOCKED`
and signals; thread 2 wakes and exchanges the lock word. -/
def wakeSchedule : List (Tid × Action) :=
  sampleSchedule ++
    [(1, .tau), (1, .call .unlock), (1, .tau), (1, .tau), (1, .tau), (1, .tau), (1, .tau),
      (1, .tau), (2, .wait 0), (2, .tau)]

/-- The state the wake schedule leads to: thread 2 is at line 212. -/
def wakeRun : Sys :=
  (runSchedule samplePlatform wakeSchedule (initSys sampleMutex)).getD (initSys sampleMutex)

/-! ## The nvmap ioctl opcodes (`libtransistor/gpu/nv_ioc.h`) -/

/-- The opcode `NVMAP_IOC_CREATE` (line 12). -/
def NVMAP_IOC_CREATE : Nat := 0xC0080101

/-- The opcode `NVMAP_IOC_FROM_ID` (line 13). -/
def NVMAP_IOC_FROM_ID : Nat := 0xC0080103

/-- The opcode `NVMAP_IOC_ALLOC` (line 14). -/
def NVMAP_IOC_ALLOC : Nat := 0xC0200104

/-- The opcode `NVMAP_IOC_FREE` (line 15). -/
def NVMAP_IOC_FREE : Nat := 0xC0180105

/-- The opcode `NVMAP_IOC_PARAM` (line 16). -/
def NVMAP_IOC_PARAM : Nat := 0xC00C0109

/-- The opcode `NVMAP_IOC_GET_ID` (line 17). -/
def NVMAP_IOC_GET_ID : Nat := 0xC008010E

/-- The types of the members of the argument structures. -/
inductive CType
  | uint8_t
  | uint32_t
  | uint64_t
  | array (elem : CType) (n : Nat)
deriving DecidableEq, Repr

/-- The size of a type in bytes. -/
def CType.bytes : CType → Nat
  | .uint8_t => 1
  | .uint32_t => 4
  | .uint64_t => 8
  | .array elem n => n * elem.bytes

/-- The natural alignment of a type: that of its scalar element. -/
def CType.alignment : CType → Nat
  | .uint8_t => 1
  | .uint32_t => 4
  | .uint64_t => 8
  | .array elem _ => elem.alignment

/-- The least multiple of `a` that is at least `n`. -/
def alignUp (n a : Nat) : Nat := (n + a - 1) / a * a

/-- The offset of the first byte after the members `fields`, laid out in
order from offset `off`, each at the next multiple of its alignment. -/
def layoutEnd : Nat → List CType → Nat
  | off, [] => off
  | off, f :: rest => layoutEnd (alignUp off f.alignment + f.bytes) rest

/-- The alignment of a structure: the largest alignment of its members. -/
def structAlign : List CType → Nat
  | [] => 1
  | f :: rest => max f.alignment (structAlign rest)

/-- The value of `sizeof` for a structure under natural alignment: the end of
the last member, rounded up to the alignment of the structure. -/
def structSize (fields : List CType) : Nat :=
  alignUp (layoutEnd 0 fields) (structAlign fields)

/-- The members of `nvmap_ioc_create_args` (lines 25-28). -/
def nvmap_ioc_create_args : List CType := [.uint32_t, .uint32_t]

/-- The members of `nvmap_ioc_from_id_args` (lines 36-39). -/
def nvmap_ioc_from_id_args : List CType := [.uint32_t, .uint32_t]

/-- The members of `nvmap_ioc_alloc_args` (lines 47-55). -/
def nvmap_ioc_alloc_args : List CType :=
  [.uint32_t, .uint32_t, .uint32_t, .uint32_t, .uint8_t, .array .uint8_t 7, .uint64_t]

/-- The members of `nvmap_ioc_free_args` (lines 61-67). -/
def nvmap_ioc_free_args : List CType :=
  [.uint32_t, .uint32_t, .uint64_t, .uint32_t, .uint32_t]

/-- The members of `nvmap_ioc_param_args` (lines 75-79). -/
def nvmap_ioc_param_args : List CType := [.uint32_t, .uint32_t, .uint32_t]

/-- The members of `nvmap_ioc_get_id_args` (lines 87-90). -/
def nvmap_ioc_get_id_args : List CType := [.uint32_t, .uint32_t]

/-- The size field of an ioctl opcode: bits 16 to 29. -/
def iocSize (op : Nat) : Nat := op / 2 ^ 16 % 2 ^ 14

/-- The direction field of an ioctl opcode: bits 30 and 31. -/
def iocDir (op : Nat) : Nat := op / 2 ^ 30 % 2 ^ 2

/-- The type byte of an ioctl opcode: bits 8 to 15. -/
def iocType (op : Nat) : Nat := op / 2 ^ 8 % 2 ^ 8

/-! ## Facts about the constants -/

theorem Platform.types_ne (P : Platform) :
    P.PTHREAD_MUTEX_ERRORCHECK ≠ P.PTHREAD_MUTEX_RECURSIVE ∧
    P.PTHREAD_MUTEX_ERRORCHECK ≠ P.PTHREAD_MUTEX_NORMAL ∧
    P.PTHREAD_MUTEX_ERRORCHECK ≠ P.PTHREAD_MUTEX_STRICT_NP ∧
    P.PTHREAD_MUTEX_RECURSIVE ≠ P.PTHREAD_MUTEX_NORMAL ∧
    P.PTHREAD_MUTEX_RECURSIVE ≠ P.PTHREAD_MUTEX_STRICT_NP ∧
    P.PTHREAD_MUTEX_NORMAL ≠ P.PTHREAD_MUTEX_STRICT_NP := by
  have h := P.types_distinct
  simp only [List.nodup_cons, List.mem_cons, List.mem_singleton, not_or] at h
  tauto

theorem Platform.errno_ne (P : Platform) :
    P.EPERM ≠ 0 ∧ P.EAGAIN ≠ 0 ∧ P.ENOMEM ≠ 0 ∧ P.EBUSY ≠ 0 ∧ P.EINVAL ≠ 0 ∧
    P.EDEADLK ≠ 0 ∧ P.ETIMEDOUT ≠ 0 ∧
    P.EBUSY ≠ P.EPERM ∧ P.EBUSY ≠ P.EAGAIN ∧ P.EBUSY ≠ P.ENOMEM ∧ P.EBUSY ≠ P.EINVAL ∧
    P.EBUSY ≠ P.EDEADLK ∧ P.EBUSY ≠ P.ETIMEDOUT := by
  have h := P.errno_distinct
  simp only [List.nodup_cons, List.mem_cons, List.mem_singleton, not_or] at h
  refine ⟨?_, ?_, ?_, ?_, ?_, ?_, ?_, ?_, ?_, ?_, ?_, ?_, ?_⟩ <;> intro e <;> simp_all

/-! ## Sequential behaviour of the calls -/

theorem unlock_owner_release (P : Platform) (self : Tid) (m : pthread_mutex)
    (hown : m.owner = some self)
    (hrec : ¬ (m.type = P.PTHREAD_MUTEX_RECURSIVE ∧ m.count > 0)) :
    pthread_mutex_unlock P self (some (some m)) =
      { outcome := .ret 0
        mutexp := some (some { m with owner := none, lock := UNLOCKED })
        sem := if m.lock = LOCKED then [] else [.lock, .signal, .unlock]
        spins := 0 } := by
  unfold pthread_mutex_unlock
  simp only [hown, ne_eq, not_true_eq_false, if_false, hrec, atomic_fetch_sub]
  by_cases hl : m.lock = LOCKED
  · simp [hl, LOCKED, UNLOCKED, wrapInt]
  · have : ¬ m.lock = UNLOCKED + 1 := by simpa [LOCKED, UNLOCKED] using hl
    simp [hl, this]

theorem timedlock_unlocked (P : Platform) (t : Tid) (calloc_ok : Bool) (m : pthread_mutex)
    (trywait : Bool) (abs : Option timespec) (timed : Bool) (waits : List Int)
    (hl : m.lock = UNLOCKED) :
    _rthread_mutex_timedlock P t calloc_ok (some (some m)) trywait abs timed waits =
      { outcome := .ret 0, mutexp := some (some { m with lock := LOCKED, owner := some t }),
        sem := [], spins := 0 } := by
  have h0 := P.errno_ne
  have hb : ¬ (0 : Int) = P.EBUSY := fun e => h0.2.2.2.1 e.symm
  simp [_rthread_mutex_timedlock, timedlockBody, _rthread_mutex_trylock,
    atomic_compare_exchange_strong, hl, hb]

theorem trylock_not_owner (P : Platform) (self : Tid) (calloc_ok : Bool) (m : pthread_mutex)
    (waits : List Int) (hheld : m.lock ≠ UNLOCKED) (hown : m.owner ≠ some self) :
    pthread_mutex_trylock P self calloc_ok (some (some m)) waits =
      { outcome := .ret P.EBUSY, mutexp := some (some m), sem := [], spins := 0 } := by
  simp [pthread_mutex_trylock, _rthread_mutex_timedlock, timedlockBody,
    _rthread_mutex_trylock, atomic_compare_exchange_strong, hheld, hown]

/-- C2. Unlock wake decision: when the caller is the recorded owner and the
mutex is not a recursive mutex with a positive count, `pthread_mutex_unlock`
returns 0, clears the owner, leaves the lock word `UNLOCKED` whatever it was,
and calls the semaphore `lock, signal, unlock` (one signal) when the lock word
was not `LOCKED` and not at all when it was `LOCKED`. -/
theorem unlock_wake_decision (P : Platform) (self : Tid) (m : pthread_mutex)
    (hown : m.owner = some self)
    (hrec : ¬ (m.type = P.PTHREAD_MUTEX_RECURSIVE ∧ m.count > 0)) :
    pthread_mutex_unlock P self (some (some m)) =
      { outcome := .ret 0
        mutexp := some (some { m with owner := none, lock := UNLOCKED })
        sem := if m.lock = LOCKED then [] else [.lock, .signal, .unlock]
        spins := 0 } :=
  unlock_owner_release P self m hown hrec

theorem unlock_wake_decision_witness :
    pthread_mutex_unlock samplePlatform 3
        (some (some { lock := 2, owner := some 3, count := 0, type := 3, prioceiling := -1 })) =
      { outcome := .ret 0
        mutexp := some (some { lock := 0, owner := none, count := 0, type := 3,
                               prioceiling := -1 })
        sem := [.lock, .signal, .unlock]
        spins := 0 } :=
  unlock_wake_decision samplePlatform 3
    { lock := 2, owner := some 3, count := 0, type := 3, prioceiling := -1 } rfl (by decide)

/-- C3. Fast path: on a constructed mutex whose lock word is `UNLOCKED`, each of
`pthread_mutex_lock`, `pthread_mutex_trylock` and `pthread_mutex_timedlock`
(any deadline), called by any thread `t`, returns 0, sets the lock word to
`LOCKED` and the owner to `t`, leaves count, type and prioceiling alone and
makes no call into the blocking primitive (and no spin iteration). -/
theorem fast_path (P : Platform) (t : Tid) (calloc_ok : Bool) (m : pthread_mutex)
    (abs : Option timespec) (waits : List Int) (hl : m.lock = UNLOCKED) :
    pthread_mutex_lock P t calloc_ok (some (some m)) waits =
      { outcome := .ret 0, mutexp := some (some { m with lock := LOCKED, owner := some t }),
        sem := [], spins := 0 } ∧
    pthread_mutex_trylock P t calloc_ok (some (some m)) waits =
      { outcome := .ret 0, mutexp := some (some { m with lock := LOCKED, owner := some t }),
        sem := [], spins := 0 } ∧
    pthread_mutex_timedlock P t calloc_ok (some (some m)) abs waits =
      { outcome := .ret 0, mutexp := some (some { m with lock := LOCKED, owner := some t }),
        sem := [], spins := 0 } := by
  exact ⟨timedlock_unlocked P t calloc_ok m false none false waits hl,
    timedlock_unlocked P t calloc_ok m true none false waits hl,
    timedlock_unlocked P t calloc_ok m false abs true waits hl⟩

theorem fast_path_witness :
    pthread_mutex_lock samplePlatform 5 true
        (some (some { lock := 0, owner := none, count := 0, type := 3, prioceiling := -1 })) [] =
      { outcome := .ret 0
        mutexp := some (some { lock := 1, owner := some 5, count := 0, type := 3,
                               prioceiling := -1 })
        sem := [], spins := 0 } :=
  (fast_path samplePlatform 5 true
    { lock := 0, owner := none, count := 0, type := 3, prioceiling := -1 } none [] rfl).1

/-- C5. Unlock by a non-owner: when the recorded owner differs from the caller,
`pthread_mutex_unlock` returns `EPERM` for an ERRORCHECK or RECURSIVE mutex,
returns 0 for a NORMAL mutex without owner, and aborts in every other case; when
it does not abort the mutex is unchanged and the semaphore is not called. -/
theorem unlock_non_owner (P : Platform) (self : Tid) (m : pthread_mutex)
    (hown : m.owner ≠ some self) :
    ((m.type = P.PTHREAD_MUTEX_ERRORCHECK ∨ m.type = P.PTHREAD_MUTEX_RECURSIVE) →
      pthread_mutex_unlock P self (some (some m)) =
        { outcome := .ret P.EPERM, mutexp := some (some m), sem := [], spins := 0 }) ∧
    ((m.type = P.PTHREAD_MUTEX_NORMAL ∧ m.owner = none) →
      pthread_mutex_unlock P self (some (some m)) =
        { outcome := .ret 0, mutexp := some (some m), sem := [], spins := 0 }) ∧
    ((¬ (m.type = P.PTHREAD_MUTEX_ERRORCHECK ∨ m.type = P.PTHREAD_MUTEX_RECURSIVE) ∧
        ¬ (m.type = P.PTHREAD_MUTEX_NORMAL ∧ m.owner = none)) →
      (pthread_mutex_unlock P self (some (some m))).outcome = .abort) ∧
    ((pthread_mutex_unlock P self (some (some m))).outcome ≠ .abort →
      (pthread_mutex_unlock P self (some (some m))).mutexp = some (some m) ∧
      (pthread_mutex_unlock P self (some (some m))).sem = []) := by
  have ht := P.types_ne
  refine ⟨?_, ?_, ?_, ?_⟩
  · intro h
    simp [pthread_mutex_unlock, hown, h]
  · rintro ⟨h1, h2⟩
    have h3 : ¬ (P.PTHREAD_MUTEX_NORMAL = P.PTHREAD_MUTEX_ERRORCHECK ∨
        P.PTHREAD_MUTEX_NORMAL = P.PTHREAD_MUTEX_RECURSIVE) := by
      rintro (e | e)
      · exact ht.2.1 e.symm
      · exact ht.2.2.2.1 e.symm
    simp [pthread_mutex_unlock, h1, h2, h3]
  · rintro ⟨h1, h2⟩
    have h3 : ¬ (m.owner = none ∧ m.type = P.PTHREAD_MUTEX_NORMAL) := fun h => h2 ⟨h.2, h.1⟩
    simp only [pthread_mutex_unlock, ne_eq, hown, not_false_eq_true, if_true, h1, if_false, h3]
  · unfold pthread_mutex_unlock
    simp only [ne_eq, hown, not_false_eq_true, if_true]
    split_ifs <;> simp

theorem unlock_non_owner_witness :
    pthread_mutex_unlock samplePlatform 4
        (some (some { lock := 1, owner := some 3, count := 0, type := 1, prioceiling := -1 })) =
      { outcome := .ret 1
        mutexp := some (some { lock := 1, owner := some 3, count := 0, type := 1,
                               prioceiling := -1 })
        sem := [], spins := 0 } :=
  (unlock_non_owner samplePlatform 4
    { lock := 1, owner := some 3, count := 0, type := 1, prioceiling := -1 } (by decide)).1
    (Or.inl rfl)

/-- C6. Error-check relock: on an ERRORCHECK mutex held by the caller,
`pthread_mutex_lock` and `pthread_mutex_timedlock` (any deadline) return
`EDEADLK`, make no call into the blocking primitive and leave the mutex
unchanged. -/
theorem errorcheck_relock (P : Platform) (self : Tid) (calloc_ok : Bool) (m : pthread_mutex)
    (abs : Option timespec) (waits : List Int)
    (htype : m.type = P.PTHREAD_MUTEX_ERRORCHECK) (hheld : m.lock ≠ UNLOCKED)
    (hown : m.owner = some self) :
    pthread_mutex_lock P self calloc_ok (some (some m)) waits =
      { outcome := .ret P.EDEADLK, mutexp := some (some m), sem := [], spins := 0 } ∧
    pthread_mutex_timedlock P self calloc_ok (some (some m)) abs waits =
      { outcome := .ret P.EDEADLK, mutexp := some (some m), sem := [], spins := 0 } := by
  have ht := P.types_ne
  have h0 := P.errno_ne
  have hb : ¬ P.EDEADLK = P.EBUSY := fun e => h0.2.2.2.2.2.2.2.2.2.2.2.1 e.symm
  obtain ⟨l, o, c, ty, pc⟩ := m
  simp only at htype hheld hown
  subst htype hown
  constructor <;>
    simp [pthread_mutex_lock, pthread_mutex_timedlock, _rthread_mutex_timedlock,
      timedlockBody, _rthread_mutex_trylock, atomic_compare_exchange_strong, hheld, ht.1, hb]

theorem errorcheck_relock_witness :
    pthread_mutex_lock samplePlatform 3 true
        (some (some { lock := 1, owner := some 3, count := 0, type := 1, prioceiling := -1 }))
        [] =
      { outcome := .ret 45
        mutexp := some (some { lock := 1, owner := some 3, count := 0, type := 1,
                               prioceiling := -1 })
        sem := [], spins := 0 } :=
  (errorcheck_relock samplePlatform 3 true
    { lock := 1, owner := some 3, count := 0, type := 1, prioceiling := -1 } none []
    rfl (by decide) rfl).1

/-- C9. Trylock on a busy mutex: when the lock word is not `UNLOCKED` and the
owner is not the caller, `pthread_mutex_trylock` returns `EBUSY`, spins zero
times, makes no call into the blocking primitive and leaves the mutex
unchanged (a `LOCKED` word stays `LOCKED`). -/
theorem trylock_busy (P : Platform) (self : Tid) (calloc_ok : Bool) (m : pthread_mutex)
    (waits : List Int) (hheld : m.lock ≠ UNLOCKED) (hown : m.owner ≠ some self) :
    pthread_mutex_trylock P self calloc_ok (some (some m)) waits =
      { outcome := .ret P.EBUSY, mutexp := some (some m), sem := [], spins := 0 } :=
  trylock_not_owner P self calloc_ok m waits hheld hown

theorem trylock_busy_witness :
    pthread_mutex_trylock samplePlatform 4 true
        (some (some { lock := 1, owner := some 3, count := 0, type := 3, prioceiling := -1 }))
        [] =
      { outcome := .ret 16
        mutexp := some (some { lock := 1, owner := some 3, count := 0, type := 3,
                               prioceiling := -1 })
        sem := [], spins := 0 } :=
  trylock_busy samplePlatform 4 true
    { lock := 1, owner := some 3, count := 0, type := 3, prioceiling := -1 } []
    (by decide) (by decide)

/-- C8. Destroy outcome: `pthread_mutex_destroy` returns `EINVAL` exactly when
the handle pointer is null or the handle holds the null sentinel; on a
constructed mutex it returns `EBUSY` exactly when the lock word is not
`UNLOCKED`, and then the handle and the mutex are unchanged and the owner can
still unlock it; otherwise it returns 0 and nulls the handle, and a second
destroy through that handle returns `EINVAL`. -/
theorem destroy_outcome (P : Platform) (mutexp : Option Handle) :
    ((pthread_mutex_destroy P mutexp).1 = P.EINVAL ↔ (mutexp = none ∨ mutexp = some none)) ∧
    (∀ m : pthread_mutex, mutexp = some (some m) →
      ((pthread_mutex_destroy P mutexp).1 = P.EBUSY ↔ m.lock ≠ UNLOCKED) ∧
      (m.lock ≠ UNLOCKED →
        (pthread_mutex_destroy P mutexp).2 = some (some m) ∧
        ∀ t, m.owner = some t →
          (pthread_mutex_unlock P t (pthread_mutex_destroy P mutexp).2).outcome = .ret 0) ∧
      (m.lock = UNLOCKED →
        pthread_mutex_destroy P mutexp = (0, some none) ∧
        (pthread_mutex_destroy P (pthread_mutex_destroy P mutexp).2).1 = P.EINVAL)) := by
  have h0 := P.errno_ne
  have hbi : ¬ P.EBUSY = P.EINVAL := h0.2.2.2.2.2.2.2.2.2.2.1
  have hi0 : ¬ (0 : Int) = P.EINVAL := fun e => h0.2.2.2.2.1 e.symm
  have hb0 : ¬ (0 : Int) = P.EBUSY := fun e => h0.2.2.2.1 e.symm
  constructor
  · rcases mutexp with _ | _ | m
    · simp [pthread_mutex_destroy]
    · simp [pthread_mutex_destroy]
    · by_cases hl : m.lock = UNLOCKED <;> simp [pthread_mutex_destroy, hl, hbi, hi0]
  · rintro m rfl
    refine ⟨?_, ?_, ?_⟩
    · by_cases hl : m.lock = UNLOCKED <;> simp [pthread_mutex_destroy, hl, hb0]
    · intro hl
      refine ⟨by simp [pthread_mutex_destroy, hl], ?_⟩
      intro t ht
      simp only [pthread_mutex_destroy, ne_eq, hl, not_false_eq_true, if_true,
        pthread_mutex_unlock, ht, not_true_eq_false, if_false, atomic_fetch_sub]
      split_ifs <;> rfl
    · intro hl
      simp [pthread_mutex_destroy, hl]

theorem destroy_outcome_witness :
    (pthread_mutex_destroy samplePlatform
        (some (some { lock := 1, owner := some 3, count := 0, type := 3,
                      prioceiling := -1 }))).1 = 16 :=
  ((destroy_outcome samplePlatform
      (some (some { lock := 1, owner := some 3, count := 0, type := 3, prioceiling := -1 }))).2
    { lock := 1, owner := some 3, count := 0, type := 3, prioceiling := -1 } rfl).1.2
    (by decide)

/-! ## The spin phase and the blocking loop -/

theorem spinLoop_busy (lock : Int) (h : lock ≠ UNLOCKED) (n : Nat) : spinLoop lock n = n := by
  induction n with
  | zero => rfl
  | succ n ih => simp [spinLoop, h, ih]

theorem waitLoop_timeout (P : Platform) (self : Tid) (abs : Option timespec) (spins : Nat)
    (m : pthread_mutex) (hm : m.lock = CONTENDED) (rest : List Int) :
    ∀ (pre : List Int) (lock : Int) (sem : List SemCall), lock ≠ UNLOCKED →
      (∀ e ∈ pre, e ≠ P.ETIMEDOUT) →
      waitLoop P self abs spins m lock sem (pre ++ P.ETIMEDOUT :: rest) =
        { outcome := .ret P.ETIMEDOUT, mutexp := some (some m),
          sem := sem ++ waitCalls abs (pre.length + 1), spins := spins } := by
  intro pre
  induction pre with
  | nil =>
    intro lock sem hl _
    simp [waitLoop, hl, waitCalls]
  | cons e pre ih =>
    intro lock sem hl hpre
    have he : e ≠ P.ETIMEDOUT := hpre e (List.mem_cons_self _ _)
    have hpre2 : ∀ x ∈ pre, x ≠ P.ETIMEDOUT := fun x hx => hpre x (List.mem_cons_of_mem _ hx)
    have hc : CONTENDED ≠ UNLOCKED := by decide
    have hmm : ({ m with lock := CONTENDED } : pthread_mutex) = m := by
      cases m; simp_all
    have step : waitLoop P self abs spins m lock sem (e :: (pre ++ P.ETIMEDOUT :: rest)) =
        waitLoop P self abs spins m CONTENDED (sem ++ [.lock, .wait abs, .unlock])
          (pre ++ P.ETIMEDOUT :: rest) := by
      simp only [waitLoop, ne_eq, hl, not_false_eq_true, if_true, he, if_false,
        atomic_exchange, hm, hmm]
    rw [List.cons_append, step, ih CONTENDED _ hc hpre2]
    simp [waitCalls, List.append_assoc]

/-- C7. Timeout fidelity: on a mutex held by a thread other than the caller, a
`pthread_mutex_timedlock` whose waits on the blocking primitive are woken any
number of times and then report `ETIMEDOUT` returns `ETIMEDOUT`; afterwards the
lock word is `CONTENDED` and owner, count, type and prioceiling are the ones
from before the call, the owner being the original holder. -/
theorem timedlock_timeout (P : Platform) (self : Tid) (calloc_ok : Bool) (m : pthread_mutex)
    (o : Tid) (abs : Option timespec) (pre rest : List Int)
    (hheld : m.lock ≠ UNLOCKED) (hown : m.owner = some o) (hne : o ≠ self)
    (hpre : ∀ e ∈ pre, e ≠ P.ETIMEDOUT) :
    pthread_mutex_timedlock P self calloc_ok (some (some m)) abs
        (pre ++ P.ETIMEDOUT :: rest) =
      { outcome := .ret P.ETIMEDOUT
        mutexp := some (some { m with lock := CONTENDED })
        sem := waitCalls abs (pre.length + 1)
        spins := SPIN_COUNT } ∧
    ({ m with lock := CONTENDED } : pthread_mutex).owner = some o ∧
    ({ m with lock := CONTENDED } : pthread_mutex).lock ≠ UNLOCKED := by
  have hos : ¬ (some o = some self) := fun e => hne (Option.some.inj e)
  refine ⟨?_, hown, by simp [CONTENDED, UNLOCKED]⟩
  obtain ⟨l, ow, c, ty, pc⟩ := m
  simp only at hheld hown
  subst hown
  have hc : CONTENDED ≠ UNLOCKED := by decide
  by_cases h2 : l = CONTENDED
  · subst h2
    simp only [pthread_mutex_timedlock, _rthread_mutex_timedlock, timedlockBody,
      _rthread_mutex_trylock, atomic_compare_exchange_strong, hc, if_false, hos, ne_eq,
      not_true_eq_false, false_or, Bool.false_eq_true, spinLoop_busy _ hc]
    rw [waitLoop_timeout P self abs _ _ rfl rest pre _ _ hc hpre]
    simp
  · simp only [pthread_mutex_timedlock, _rthread_mutex_timedlock, timedlockBody,
      _rthread_mutex_trylock, atomic_compare_exchange_strong, hheld, if_false, hos, ne_eq,
      not_true_eq_false, false_or, Bool.false_eq_true, spinLoop_busy _ hheld, h2,
      not_false_eq_true, if_true, atomic_exchange]
    rw [waitLoop_timeout P self abs _ _ rfl rest pre _ _ hheld hpre]
    simp

theorem timedlock_timeout_witness :
    pthread_mutex_timedlock samplePlatform 4 true
        (some (some { lock := 1, owner := some 3, count := 0, type := 3, prioceiling := -1 }))
        (some { tv_sec := 0, tv_nsec := 0 }) ([0] ++ samplePlatform.ETIMEDOUT :: []) =
      { outcome := .ret 116
        mutexp := some (some { lock := 2, owner := some 3, count := 0, type := 3,
                               prioceiling := -1 })
        sem := waitCalls (some { tv_sec := 0, tv_nsec := 0 }) 2
        spins := 128 } :=
  (timedlock_timeout samplePlatform 4 true
    { lock := 1, owner := some 3, count := 0, type := 3, prioceiling := -1 } 3
    (some { tv_sec := 0, tv_nsec := 0 }) [0] [] (by decide) rfl (by decide)
    (by decide)).1

/-! ## Recursive mutexes -/

theorem lock_recursive_held (P : Platform) (t : Tid) (calloc_ok : Bool) (waits : List Int)
    (m : pthread_mutex) (htype : m.type = P.PTHREAD_MUTEX_RECURSIVE)
    (hheld : m.lock ≠ UNLOCKED) (hown : m.owner = some t) (hc : m.count ≠ INT_MAX) :
    pthread_mutex_lock P t calloc_ok (some (some m)) waits =
      { outcome := .ret 0, mutexp := some (some { m with count := m.count + 1 }),
        sem := [], spins := 0 } := by
  have h0 := P.errno_ne
  have hb : ¬ (0 : Int) = P.EBUSY := fun e => h0.2.2.2.1 e.symm
  obtain ⟨l, o, c, ty, pc⟩ := m
  simp only at htype hheld hown hc
  subst htype hown
  simp [pthread_mutex_lock, _rthread_mutex_timedlock, timedlockBody, _rthread_mutex_trylock,
    atomic_compare_exchange_strong, hheld, hc, hb]

theorem unlock_recursive_held (P : Platform) (t : Tid) (m : pthread_mutex)
    (htype : m.type = P.PTHREAD_MUTEX_RECURSIVE) (hown : m.owner = some t)
    (hc : m.count > 0) :
    pthread_mutex_unlock P t (some (some m)) =
      { outcome := .ret 0, mutexp := some (some { m with count := m.count - 1 }),
        sem := [], spins := 0 } := by
  simp [pthread_mutex_unlock, htype, hown, hc]

theorem repeatLock_held (P : Platform) (t : Tid) (calloc_ok : Bool) (waits : List Int) :
    ∀ (n : Nat) (m : pthread_mutex), m.type = P.PTHREAD_MUTEX_RECURSIVE →
      m.lock ≠ UNLOCKED → m.owner = some t → m.count + n ≤ INT_MAX →
      repeatLock P t calloc_ok waits n (some (some m)) =
        (some (some { m with count := m.count + n }), List.replicate n (.ret 0)) := by
  intro n
  induction n with
  | zero => intro m _ _ _ _; simp [repeatLock]
  | succ n ih =>
    intro m htype hheld hown hc
    have hc1 : m.count ≠ INT_MAX := by
      intro e
      rw [e] at hc
      push_cast at hc
      omega
    have hc2 : m.count + 1 + (n : Int) ≤ INT_MAX := by
      push_cast at hc
      omega
    rw [repeatLock, lock_recursive_held P t calloc_ok waits m htype hheld hown hc1]
    simp only
    rw [ih { m with count := m.count + 1 } htype hheld hown hc2]
    simp only [List.replicate_succ]
    refine Prod.ext ?_ rfl
    simp only [Option.some.injEq, pthread_mutex.mk.injEq, true_and, and_true]
    push_cast
    omega

theorem repeatUnlock_held (P : Platform) (t : Tid) :
    ∀ (n : Nat) (m : pthread_mutex), m.type = P.PTHREAD_MUTEX_RECURSIVE →
      m.owner = some t → (n : Int) ≤ m.count →
      repeatUnlock P t n (some (some m)) =
        (some (some { m with count := m.count - n }), List.replicate n (.ret 0)) := by
  intro n
  induction n with
  | zero => intro m _ _ _; simp [repeatUnlock]
  | succ n ih =>
    intro m htype hown hc
    have hc1 : m.count > 0 := by
      push_cast at hc
      omega
    have hc2 : (n : Int) ≤ m.count - 1 := by
      push_cast at hc
      omega
    rw [repeatUnlock, unlock_recursive_held P t m htype hown hc1]
    simp only
    rw [ih { m with count := m.count - 1 } htype hown hc2]
    simp only [List.replicate_succ]
    refine Prod.ext ?_ rfl
    simp only [Option.some.injEq, pthread_mutex.mk.injEq, true_and, and_true]
    push_cast
    omega

/-- C4. Recursive lock/unlock balance: on an unheld RECURSIVE mutex with count
0, `N ≥ 1` consecutive locks by `t` (with `N - 1` within the counter's range)
all return 0 and leave owner `t` and count `N - 1`; after any `k ≤ N - 1` of
the following unlocks by `t`, all returning 0, the mutex is still held by `t`
(lock word `LOCKED`, owner `t`) and a trylock by any other thread returns
`EBUSY`; the `N`-th unlock returns the mutex to lock word `UNLOCKED`, no owner,
count 0. -/
theorem recursive_balance (P : Platform) (t : Tid) (calloc_ok : Bool) (waits : List Int)
    (m : pthread_mutex) (N : Nat)
    (htype : m.type = P.PTHREAD_MUTEX_RECURSIVE) (hl : m.lock = UNLOCKED)
    (hown : m.owner = none) (hcount : m.count = 0) (hN : 1 ≤ N)
    (hmax : (N : Int) - 1 ≤ INT_MAX) :
    repeatLock P t calloc_ok waits N (some (some m)) =
      (some (some { m with lock := LOCKED, owner := some t, count := (N : Int) - 1 }),
        List.replicate N (.ret 0)) ∧
    (∀ k : Nat, k + 1 ≤ N →
      repeatUnlock P t k (repeatLock P t calloc_ok waits N (some (some m))).1 =
        (some (some { m with lock := LOCKED, owner := some t, count := (N : Int) - 1 - k }),
          List.replicate k (.ret 0)) ∧
      ∀ u : Tid, u ≠ t →
        pthread_mutex_trylock P u calloc_ok
            (repeatUnlock P t k (repeatLock P t calloc_ok waits N (some (some m))).1).1 waits =
          { outcome := .ret P.EBUSY
            mutexp := some (some { m with lock := LOCKED, owner := some t,
                                          count := (N : Int) - 1 - k })
            sem := [], spins := 0 }) ∧
    repeatUnlock P t N (repeatLock P t calloc_ok waits N (some (some m))).1 =
      (some (some { m with lock := UNLOCKED, owner := none, count := 0 }),
        List.replicate N (.ret 0)) := by
  obtain ⟨n, rfl⟩ : ∃ n, N = n + 1 := ⟨N - 1, by omega⟩
  obtain ⟨l, o, c, ty, pc⟩ := m
  simp only at htype hl hown hcount
  subst hl hown hcount
  have hlocked : LOCKED ≠ UNLOCKED := by decide
  have hlocks : repeatLock P t calloc_ok waits (n + 1)
        (some (some { lock := UNLOCKED, owner := none, count := 0, type := ty,
                      prioceiling := pc })) =
      (some (some { lock := LOCKED, owner := some t, count := ((n + 1 : Nat) : Int) - 1,
                    type := ty, prioceiling := pc }),
        List.replicate (n + 1) (.ret 0)) := by
    rw [repeatLock, pthread_mutex_lock, timedlock_unlocked P t calloc_ok _ false none false waits rfl]
    simp only
    rw [repeatLock_held P t calloc_ok waits n
      { lock := LOCKED, owner := some t, count := 0, type := ty, prioceiling := pc }
      htype hlocked rfl (by simp only; push_cast at hmax; omega)]
    simp only [List.replicate_succ]
    refine Prod.ext ?_ rfl
    simp only [Option.some.injEq, pthread_mutex.mk.injEq, true_and, and_true]
    push_cast
    omega
  have hunlocks : ∀ k : Nat, k ≤ n →
      repeatUnlock P t k (repeatLock P t calloc_ok waits (n + 1)
        (some (some { lock := UNLOCKED, owner := none, count := 0, type := ty,
                      prioceiling := pc }))).1 =
        (some (some { lock := LOCKED, owner := some t,
                      count := ((n + 1 : Nat) : Int) - 1 - k, type := ty, prioceiling := pc }),
          List.replicate k (.ret 0)) := by
    intro k hk
    rw [hlocks]
    simp only
    rw [repeatUnlock_held P t k
      { lock := LOCKED, owner := some t, count := ((n + 1 : Nat) : Int) - 1, type := ty,
        prioceiling := pc } htype rfl (by simp only; push_cast; omega)]
  refine ⟨hlocks, ?_, ?_⟩
  · intro k hk
    have hk2 : k ≤ n := by omega
    refine ⟨hunlocks k hk2, ?_⟩
    intro u hu
    rw [hunlocks k hk2]
    exact trylock_not_owner P u calloc_ok _ waits hlocked
      (fun e => hu (Option.some.inj e).symm)
  · have hlast : ∀ (k : Nat) (h : Option Handle),
        repeatUnlock P t (k + 1) h =
          ((repeatUnlock P t 1 (repeatUnlock P t k h).1).1,
            (repeatUnlock P t k h).2 ++ (repeatUnlock P t 1 (repeatUnlock P t k h).1).2) := by
      intro k
      induction k with
      | zero => intro h; simp [repeatUnlock]
      | succ k ih =>
        intro h
        rw [repeatUnlock, ih]
        simp [repeatUnlock]
    rw [hlast n, hunlocks n (le_refl n)]
    have hrec : ¬ (ty = P.PTHREAD_MUTEX_RECURSIVE ∧ ((n + 1 : Nat) : Int) - 1 - n > 0) := by
      push_cast
      intro h
      omega
    simp only [repeatUnlock]
    rw [unlock_owner_release P t
      { lock := LOCKED, owner := some t, count := ((n + 1 : Nat) : Int) - 1 - n, type := ty,
        prioceiling := pc } rfl hrec]
    refine Prod.ext ?_ ?_
    · simp only [Option.some.injEq, pthread_mutex.mk.injEq, true_and, and_true]
      push_cast
      omega
    · simp [List.replicate_succ', List.replicate_succ]

theorem recursive_balance_witness :
    repeatLock samplePlatform 3 true [] 3
        (some (some { lock := 0, owner := none, count := 0, type := 2, prioceiling := -1 })) =
      (some (some { lock := 1, owner := some 3, count := 2, type := 2, prioceiling := -1 }),
        [.ret 0, .ret 0, .ret 0]) :=
  (recursive_balance samplePlatform 3 true []
    { lock := 0, owner := none, count := 0, type := 2, prioceiling := -1 } 3
    rfl rfl rfl rfl (by decide) (by decide)).1

/-! ## Abort -/

theorem waitLoop_outcome (P : Platform) (self : Tid) (abs : Option timespec) (spins : Nat) :
    ∀ (waits : List Int) (m : pthread_mutex) (lock : Int) (sem : List SemCall),
      (waitLoop P self abs spins m lock sem waits).outcome ≠ .abort ∧
      (P.ETIMEDOUT ∈ waits →
        ∃ code, (waitLoop P self abs spins m lock sem waits).outcome = .ret code) := by
  intro waits
  induction waits with
  | nil =>
    intro m lock sem
    by_cases hl : lock = UNLOCKED <;> simp [waitLoop, hl]
  | cons e rest ih =>
    intro m lock sem
    by_cases hl : lock = UNLOCKED
    · simp [waitLoop, hl]
    · by_cases he : e = P.ETIMEDOUT
      · simp [waitLoop, hl, he]
      · have h := ih { m with lock := CONTENDED } m.lock
          (sem ++ [.lock, .wait abs, .unlock])
        simp only [waitLoop, ne_eq, hl, not_false_eq_true, if_true, he, if_false,
          atomic_exchange, List.mem_cons]
        refine ⟨h.1, ?_⟩
        rintro (h1 | h1)
        · exact absurd h1.symm he
        · exact h.2 h1

theorem timedlockBody_blocking (P : Platform) (self : Tid) (m : pthread_mutex)
    (abs : Option timespec) (waits : List Int)
    (hl : m.lock ≠ UNLOCKED) (ho : m.owner ≠ some self) :
    timedlockBody P self m false abs waits =
      waitLoop P self abs SPIN_COUNT { m with lock := CONTENDED } m.lock [] waits := by
  obtain ⟨l, o, c, ty, pc⟩ := m
  simp only at hl ho
  have htry : _rthread_mutex_trylock P self
      { lock := l, owner := o, count := c, type := ty, prioceiling := pc } false abs waits =
      { outcome := .ret P.EBUSY
        mutex := { lock := l, owner := o, count := c, type := ty, prioceiling := pc }
        sem := [], waits := waits } := by
    simp [_rthread_mutex_trylock, atomic_compare_exchange_strong, hl, ho]
  unfold timedlockBody
  rw [htry]
  simp only [ne_eq, not_true_eq_false, Bool.false_eq_true, or_self, if_false,
    atomic_compare_exchange_strong, hl, spinLoop_busy l hl, atomic_exchange]
  by_cases h2 : l = CONTENDED
  · subst h2
    simp
  · simp [h2]

theorem timedlockBody_outcome (P : Platform) (self : Tid) (m : pthread_mutex) (trywait : Bool)
    (abs : Option timespec) (waits : List Int) :
    ((timedlockBody P self m trywait abs waits).outcome = .abort ↔
      (m.lock ≠ UNLOCKED ∧ m.owner = some self ∧ m.type = P.PTHREAD_MUTEX_STRICT_NP ∧
        trywait = false ∧ abs = none)) ∧
    ((trywait = true ∨ P.ETIMEDOUT ∈ waits) →
      (timedlockBody P self m trywait abs waits).outcome ≠ .abort →
      ∃ code, (timedlockBody P self m trywait abs waits).outcome = .ret code) := by
  have ht := P.types_ne
  have h0 := P.errno_ne
  have hb0 : ¬ (0 : Int) = P.EBUSY := fun e => h0.2.2.2.1 e.symm
  have hbd : ¬ P.EDEADLK = P.EBUSY := fun e => h0.2.2.2.2.2.2.2.2.2.2.2.1 e.symm
  have hbt : ¬ P.ETIMEDOUT = P.EBUSY := fun e => h0.2.2.2.2.2.2.2.2.2.2.2.2 e.symm
  have hba : ¬ P.EAGAIN = P.EBUSY := fun e => h0.2.2.2.2.2.2.2.2.1 e.symm
  obtain ⟨l, o, c, ty, pc⟩ := m
  by_cases hl : l = UNLOCKED
  · simp [timedlockBody, _rthread_mutex_trylock, atomic_compare_exchange_strong, hl, hb0]
  by_cases ho : o = some self
  swap
  · -- busy and not self-owned
    cases trywait
    · rw [timedlockBody_blocking P self _ abs waits hl ho]
      have h := waitLoop_outcome P self abs SPIN_COUNT waits
        { lock := CONTENDED, owner := o, count := c, type := ty, prioceiling := pc } l []
      simp only [ne_eq, Bool.false_eq_true, false_or, true_and]
      refine ⟨⟨fun e => absurd e h.1, fun e => absurd e.2.1 ho⟩, fun hh _ => h.2 hh⟩
    · simp [timedlockBody, _rthread_mutex_trylock, atomic_compare_exchange_strong, hl, ho]
  subst ho
  by_cases hr : ty = P.PTHREAD_MUTEX_RECURSIVE
  · subst hr
    have hs : ¬ P.PTHREAD_MUTEX_RECURSIVE = P.PTHREAD_MUTEX_STRICT_NP := ht.2.2.2.2.1
    by_cases hc : c = INT_MAX <;>
      simp [timedlockBody, _rthread_mutex_trylock, atomic_compare_exchange_strong, hl, hc, hs,
        hba, hb0]
  cases trywait
  swap
  · simp [timedlockBody, _rthread_mutex_trylock, atomic_compare_exchange_strong, hl, hr]
  by_cases he : ty = P.PTHREAD_MUTEX_ERRORCHECK
  · subst he
    simp [timedlockBody, _rthread_mutex_trylock, atomic_compare_exchange_strong, hl, hr, hbd,
      ht.2.2.1]
  by_cases hs : ty = P.PTHREAD_MUTEX_STRICT_NP ∧ abs = none
  · obtain ⟨hs1, hs2⟩ := hs
    subst hs1 hs2
    simp [timedlockBody, _rthread_mutex_trylock, atomic_compare_exchange_strong, hl, hr, he]
  · have hs2 : ¬ (ty = P.PTHREAD_MUTEX_STRICT_NP ∧ abs = none) := hs
    cases waits with
    | nil =>
      simp [timedlockBody, _rthread_mutex_trylock, atomic_compare_exchange_strong, hl, hr, he,
        hs2]
    | cons w rest =>
      simp [timedlockBody, _rthread_mutex_trylock, atomic_compare_exchange_strong, hl, hr, he,
        hs2, hbt]

theorem timedlock_outcome (P : Platform) (self : Tid) (calloc_ok : Bool)
    (mutexp : Option Handle) (trywait : Bool) (abs : Option timespec) (timed : Bool)
    (waits : List Int) :
    ((_rthread_mutex_timedlock P self calloc_ok mutexp trywait abs timed waits).outcome = .abort ↔
      ∃ m : pthread_mutex, mutexp = some (some m) ∧ m.lock ≠ UNLOCKED ∧ m.owner = some self ∧
        m.type = P.PTHREAD_MUTEX_STRICT_NP ∧ trywait = false ∧ abs = none) ∧
    ((trywait = true ∨ P.ETIMEDOUT ∈ waits) →
      (_rthread_mutex_timedlock P self calloc_ok mutexp trywait abs timed waits).outcome ≠ .abort →
      ∃ code,
        (_rthread_mutex_timedlock P self calloc_ok mutexp trywait abs timed waits).outcome =
          .ret code) := by
  have h0 := P.errno_ne
  rcases mutexp with _ | _ | m
  · simp [_rthread_mutex_timedlock]
  · cases calloc_ok
    · simp [_rthread_mutex_timedlock, pthread_mutex_init, h0.2.2.1]
    · have hb := timedlockBody_outcome P self
        { lock := 0, owner := none, count := 0, type := P.PTHREAD_MUTEX_DEFAULT,
          prioceiling := -1 } trywait abs waits
      simp only [_rthread_mutex_timedlock, pthread_mutex_init, Bool.not_true,
        Bool.false_eq_true, if_false, ne_eq, not_true_eq_false]
      refine ⟨?_, hb.2⟩
      rw [hb.1]
      simp [UNLOCKED]
  · have hb := timedlockBody_outcome P self m trywait abs waits
    simp only [_rthread_mutex_timedlock]
    refine ⟨?_, hb.2⟩
    rw [hb.1]
    constructor
    · intro h
      exact ⟨m, rfl, h⟩
    · rintro ⟨m2, hm, h⟩
      have : m = m2 := Option.some.inj (Option.some.inj hm)
      subst this
      exact h

/-- C10. Fatal self-deadlock: `pthread_mutex_lock` aborts exactly when the mutex
is held by the caller and of type STRICT; `pthread_mutex_timedlock` aborts
exactly when moreover no deadline is given; `pthread_mutex_trylock` never
aborts and always returns a code; and a lock or timedlock that does not abort
returns a code in every run in which some wait on the blocking primitive times
out. -/
theorem fatal_self_deadlock (P : Platform) (self : Tid) (calloc_ok : Bool)
    (mutexp : Option Handle) (abs : Option timespec) (waits : List Int) :
    ((pthread_mutex_lock P self calloc_ok mutexp waits).outcome = .abort ↔
      ∃ m : pthread_mutex, mutexp = some (some m) ∧ m.lock ≠ UNLOCKED ∧ m.owner = some self ∧
        m.type = P.PTHREAD_MUTEX_STRICT_NP) ∧
    ((pthread_mutex_timedlock P self calloc_ok mutexp abs waits).outcome = .abort ↔
      ∃ m : pthread_mutex, mutexp = some (some m) ∧ m.lock ≠ UNLOCKED ∧ m.owner = some self ∧
        m.type = P.PTHREAD_MUTEX_STRICT_NP ∧ abs = none) ∧
    (pthread_mutex_trylock P self calloc_ok mutexp waits).outcome ≠ .abort ∧
    (∃ code, (pthread_mutex_trylock P self calloc_ok mutexp waits).outcome = .ret code) ∧
    (P.ETIMEDOUT ∈ waits →
      (pthread_mutex_lock P self calloc_ok mutexp waits).outcome ≠ .abort →
      ∃ code, (pthread_mutex_lock P self calloc_ok mutexp waits).outcome = .ret code) ∧
    (P.ETIMEDOUT ∈ waits →
      (pthread_mutex_timedlock P self calloc_ok mutexp abs waits).outcome ≠ .abort →
      ∃ code,
        (pthread_mutex_timedlock P self calloc_ok mutexp abs waits).outcome = .ret code) := by
  have hlock := timedlock_outcome P self calloc_ok mutexp false none false waits
  have htimed := timedlock_outcome P self calloc_ok mutexp false abs true waits
  have htry := timedlock_outcome P self calloc_ok mutexp true none false waits
  have htry_na : (pthread_mutex_trylock P self calloc_ok mutexp waits).outcome ≠ .abort := by
    intro h
    obtain ⟨m, _, _, _, _, hf, _⟩ := htry.1.1 h
    exact Bool.noConfusion hf
  refine ⟨?_, ?_, htry_na, htry.2 (Or.inl rfl) htry_na, fun h => hlock.2 (Or.inr h),
    fun h => htimed.2 (Or.inr h)⟩
  · unfold pthread_mutex_lock
    rw [hlock.1]
    constructor
    · rintro ⟨m, h1, h2, h3, h4, _, _⟩
      exact ⟨m, h1, h2, h3, h4⟩
    · rintro ⟨m, h1, h2, h3, h4⟩
      exact ⟨m, h1, h2, h3, h4, rfl, rfl⟩
  · unfold pthread_mutex_timedlock
    rw [htimed.1]
    constructor
    · rintro ⟨m, h1, h2, h3, h4, _, h5⟩
      exact ⟨m, h1, h2, h3, h4, h5⟩
    · rintro ⟨m, h1, h2, h3, h4, h5⟩
      exact ⟨m, h1, h2, h3, h4, rfl, h5⟩

theorem fatal_self_deadlock_witness :
    ∃ code,
      (pthread_mutex_timedlock samplePlatform 3 true
        (some (some { lock := 1, owner := some 3, count := 0, type := 4, prioceiling := -1 }))
        (some { tv_sec := 0, tv_nsec := 0 }) [116]).outcome = .ret code :=
  (fatal_self_deadlock samplePlatform 3 true
    (some (some { lock := 1, owner := some 3, count := 0, type := 4, prioceiling := -1 }))
    (some { tv_sec := 0, tv_nsec := 0 }) [116]).2.2.2.2.2 (by decide) (by decide)

/-! ## Mutual exclusion under interleaving -/

theorem pcOK_afterTrylock (P : Platform) (m : pthread_mutex) (t : Tid) (trywait : Bool)
    (abs : Option timespec) (error : Int) (owns : Bool) (h : error = 0 → owns = true) :
    pcOK m t { pc := afterTrylock P trywait abs error, owns := owns } := by
  unfold afterTrylock
  split_ifs
  · exact h
  · trivial

theorem pcOK_of_owner (m m2 : pthread_mutex) (t : Tid) (th : Thr)
    (h : m2.owner = some t → m.owner = some t) (hp : pcOK m t th) : pcOK m2 t th := by
  obtain ⟨pc, owns⟩ := th
  cases pc <;> simp only [pcOK] at hp ⊢ <;> first
    | exact hp
    | exact ⟨hp.1, fun e => hp.2 (h e)⟩

theorem stepOK_move (t : Tid) (m : pthread_mutex) (pc pc2 : Pc) (owns : Bool)
    (hlock : m.lock = UNLOCKED ∨ m.lock = LOCKED ∨ m.lock = CONTENDED)
    (hown : owns = true → m.lock ≠ UNLOCKED) (howner : m.owner = some t → owns = true)
    (hp : pcOK m t { pc := pc2, owns := owns }) :
    StepOK t m { pc := pc, owns := owns } m { pc := pc2, owns := owns } := by
  refine ⟨hlock, hp, hown, howner, ?_, fun h => Or.inl h, fun _ _ h => h, ?_⟩
  · intro h1 h2
    simp only at h1 h2
    rw [h1] at h2
    exact absurd h2 (by simp)
  · intro h1 h2
    simp only at h1 h2
    rw [h1] at h2
    exact absurd h2 (by simp)

theorem stepOK_count (t : Tid) (m : pthread_mutex) (pc pc2 : Pc) (owns : Bool) (c2 : Int)
    (hlock : m.lock = UNLOCKED ∨ m.lock = LOCKED ∨ m.lock = CONTENDED)
    (hown : owns = true → m.lock ≠ UNLOCKED) (howner : m.owner = some t → owns = true)
    (hp : pcOK m t { pc := pc2, owns := owns }) :
    StepOK t m { pc := pc, owns := owns } { m with count := c2 } { pc := pc2, owns := owns } := by
  have h := stepOK_move t m pc pc2 owns hlock hown howner hp
  exact ⟨h.1, pcOK_of_owner m _ t _ (fun e => e) hp, h.2.2.1, h.2.2.2.1, h.2.2.2.2.1,
    h.2.2.2.2.2.1, h.2.2.2.2.2.2.1, h.2.2.2.2.2.2.2⟩

theorem stepOK_owner (t : Tid) (m : pthread_mutex) (pc pc2 : Pc) (o2 : Option Tid)
    (hlock : m.lock = UNLOCKED ∨ m.lock = LOCKED ∨ m.lock = CONTENDED)
    (hown : m.lock ≠ UNLOCKED) (ho : o2 = some t ∨ o2 = none)
    (hp : pcOK { m with owner := o2 } t { pc := pc2, owns := true }) :
    StepOK t m { pc := pc, owns := true } { m with owner := o2 } { pc := pc2, owns := true } := by
  refine ⟨hlock, hp, fun _ => hown, fun _ => rfl, ?_, fun h => Or.inl h, ?_, ?_⟩
  · intro _ h2
    exact absurd h2 (by simp)
  · intro u hu h
    simp only at h
    rcases ho with rfl | rfl
    · exact absurd (Option.some.inj h).symm hu
    · exact absurd h (by simp)
  · intro _ h2
    exact absurd h2 (by simp)

theorem stepOK_acquire (t : Tid) (m : pthread_mutex) (pc pc2 : Pc) (owns : Bool) (w : Int)
    (hl : m.lock = UNLOCKED) (hw : w = LOCKED ∨ w = CONTENDED)
    (hp : pcOK m t { pc := pc2, owns := true }) :
    StepOK t m { pc := pc, owns := owns } { m with lock := w } { pc := pc2, owns := true } := by
  have hw0 : w ≠ UNLOCKED := by
    rcases hw with rfl | rfl <;> decide
  refine ⟨Or.inr hw, pcOK_of_owner m _ t _ (fun e => e) hp, fun _ => hw0, fun _ => rfl,
    fun _ _ => hl, fun _ => Or.inl hl, fun _ _ h => h, ?_⟩
  intro _ h2
  exact absurd h2 (by simp)

theorem stepOK_mark (t : Tid) (m : pthread_mutex) (pc pc2 : Pc) (owns : Bool) (w : Int)
    (hw : w = LOCKED ∨ w = CONTENDED)
    (howner : m.owner = some t → owns = true)
    (hp : pcOK m t { pc := pc2, owns := owns }) :
    StepOK t m { pc := pc, owns := owns } { m with lock := w } { pc := pc2, owns := owns } := by
  have hw0 : w ≠ UNLOCKED := by
    rcases hw with rfl | rfl <;> decide
  refine ⟨Or.inr hw, pcOK_of_owner m _ t _ (fun e => e) hp, fun _ => hw0, howner, ?_,
    fun h => absurd h hw0, fun _ _ h => h, ?_⟩
  · intro h1 h2
    simp only at h1 h2
    rw [h1] at h2
    exact absurd h2 (by simp)
  · intro h1 h2
    simp only at h1 h2
    rw [h1] at h2
    exact absurd h2 (by simp)

theorem stepOK_release (t : Tid) (m : pthread_mutex) (pc pc2 : Pc) (owns : Bool)
    (hpc : pc = .unFetchSub ∨ pc = .unStore) (ho : m.owner ≠ some t) (howns : owns = true)
    (hp : pcOK m t { pc := pc2, owns := false }) :
    StepOK t m { pc := pc, owns := owns } { m with lock := UNLOCKED }
      { pc := pc2, owns := false } := by
  refine ⟨Or.inl rfl, pcOK_of_owner m _ t _ (fun e => e) hp, ?_, fun h => absurd h ho, ?_,
    fun _ => Or.inr howns, fun _ _ h => h, fun _ _ => ⟨rfl, hpc⟩⟩
  · intro h
    exact absurd h (by simp)
  · intro h
    exact absurd h (by simp)

theorem threadStep_ok (P : Platform) (t : Tid) (m : pthread_mutex) (th : Thr) (a : Action)
    (m2 : pthread_mutex) (th2 : Thr) (ab : Bool)
    (h : threadStep P t m th a = some (m2, th2, ab))
    (hlock : m.lock = UNLOCKED ∨ m.lock = LOCKED ∨ m.lock = CONTENDED)
    (hpc : pcOK m t th) (hown : th.owns = true → m.lock ≠ UNLOCKED)
    (howner : m.owner = some t → th.owns = true) :
    StepOK t m th m2 th2 := by
  have h0 := P.errno_ne
  have hl12 : m.lock ≠ UNLOCKED → m.lock = LOCKED ∨ m.lock = CONTENDED := by
    intro h1
    rcases hlock with h2 | h2
    · exact absurd h2 h1
    · exact h2
  obtain ⟨pc, owns⟩ := th
  simp only at hown howner
  cases a with
  | call c =>
    cases pc <;> cases c <;> simp [threadStep] at h
    all_goals
      obtain ⟨rfl, rfl, rfl⟩ := h
      exact stepOK_move t _ _ _ _ hlock hown howner trivial
  | wait e =>
    cases pc <;> simp [threadStep] at h
    case trySelfWait tw abs =>
      obtain ⟨rfl, rfl, rfl⟩ := h
      exact stepOK_move t _ _ _ _ hlock hown howner
        (pcOK_afterTrylock P _ t tw abs _ _ (fun _ => hpc))
    case semWait abs =>
      by_cases he : e = P.ETIMEDOUT
      · simp only [he, if_true, Option.some.injEq, Prod.mk.injEq] at h
        obtain ⟨rfl, rfl, rfl⟩ := h
        exact stepOK_move t _ _ _ _ hlock hown howner (fun e0 => absurd e0 h0.2.2.2.2.2.2.1)
      · simp only [he, if_false, Option.some.injEq, Prod.mk.injEq] at h
        obtain ⟨rfl, rfl, rfl⟩ := h
        exact stepOK_move t _ _ _ _ hlock hown howner trivial
  | tau =>
    cases pc
    case idle => simp [threadStep] at h
    case trySelfWait => simp [threadStep] at h
    case semWait => simp [threadStep] at h
    case tryCas tw abs =>
      by_cases hl : m.lock = UNLOCKED
      · simp only [threadStep, atomic_compare_exchange_strong, hl, if_true, Option.some.injEq,
          Prod.mk.injEq] at h
        obtain ⟨rfl, rfl, rfl⟩ := h
        exact stepOK_acquire t m _ _ owns LOCKED hl (Or.inl rfl) rfl
      · simp only [threadStep, atomic_compare_exchange_strong, hl, if_false, Option.some.injEq,
          Prod.mk.injEq] at h
        obtain ⟨rfl, rfl, rfl⟩ := h
        exact stepOK_mark t m _ _ owns m.lock (hl12 hl) howner trivial
    case trySetOwner tw abs =>
      simp only [threadStep, Option.some.injEq, Prod.mk.injEq] at h
      obtain ⟨rfl, rfl, rfl⟩ := h
      have ho : owns = true := hpc
      subst ho
      exact stepOK_owner t m _ _ (some t) hlock (hown rfl) (Or.inl rfl)
        (pcOK_afterTrylock P _ t tw abs 0 true (fun _ => rfl))
    case tryReadOwner tw abs =>
      by_cases ho : m.owner = some t
      · simp only [threadStep, ho, if_true, Option.some.injEq, Prod.mk.injEq] at h
        obtain ⟨rfl, rfl, rfl⟩ := h
        exact stepOK_move t _ _ _ _ hlock hown howner (howner ho)
      · simp only [threadStep, ho, if_false, Option.some.injEq, Prod.mk.injEq] at h
        obtain ⟨rfl, rfl, rfl⟩ := h
        exact stepOK_move t _ _ _ _ hlock hown howner
          (pcOK_afterTrylock P _ t tw abs _ _ (fun e0 => absurd e0 h0.2.2.2.1))
    case tryReadType tw abs =>
      have ho : owns = true := hpc
      simp only [threadStep] at h
      split_ifs at h <;> simp only [Option.some.injEq, Prod.mk.injEq] at h <;>
        obtain ⟨rfl, rfl, rfl⟩ := h <;>
        first
          | exact stepOK_move t _ _ _ _ hlock hown howner ho
          | exact stepOK_move t _ _ _ _ hlock hown howner
              (pcOK_afterTrylock P _ t tw abs _ _ (fun _ => ho))
    case tryReadCount tw abs =>
      have ho : owns = true := hpc
      simp only [threadStep] at h
      split_ifs at h <;> simp only [Option.some.injEq, Prod.mk.injEq] at h <;>
        obtain ⟨rfl, rfl, rfl⟩ := h
      · exact stepOK_move t _ _ _ _ hlock hown howner
          (pcOK_afterTrylock P _ t tw abs _ _ (fun _ => ho))
      · exact stepOK_move t _ _ _ _ hlock hown howner ho
    case tryIncCount tw abs =>
      have ho : owns = true := hpc
      simp only [threadStep, Option.some.injEq, Prod.mk.injEq] at h
      obtain ⟨rfl, rfl, rfl⟩ := h
      exact stepOK_count t _ _ _ _ _ hlock hown howner
        (pcOK_afterTrylock P _ t tw abs _ _ (fun _ => ho))
    case spin abs i =>
      simp only [threadStep] at h
      split_ifs at h <;> simp only [Option.some.injEq, Prod.mk.injEq] at h <;>
        obtain ⟨rfl, rfl, rfl⟩ := h <;>
        exact stepOK_move t _ _ _ _ hlock hown howner trivial
    case cas abs =>
      by_cases hl : m.lock = UNLOCKED
      · simp only [threadStep, atomic_compare_exchange_strong, hl, if_true, Option.some.injEq,
          Prod.mk.injEq] at h
        obtain ⟨rfl, rfl, rfl⟩ := h
        exact stepOK_acquire t m _ _ owns LOCKED hl (Or.inl rfl) rfl
      · simp only [threadStep, atomic_compare_exchange_strong, hl, if_false] at h
        split_ifs at h <;> simp only [Option.some.injEq, Prod.mk.injEq] at h <;>
          obtain ⟨rfl, rfl, rfl⟩ := h
        · exact stepOK_mark t m _ _ owns m.lock (hl12 hl) howner trivial
        · refine stepOK_mark t m _ _ owns m.lock (hl12 hl) howner ?_
          simp only [loopHead, ne_eq, hl, not_false_eq_true, if_true]
          trivial
    case xchg abs =>
      simp only [threadStep, atomic_exchange, Option.some.injEq, Prod.mk.injEq] at h
      obtain ⟨rfl, rfl, rfl⟩ := h
      by_cases hl : m.lock = UNLOCKED
      · simp only [hl, if_true]
        refine stepOK_acquire t m _ _ owns CONTENDED hl (Or.inr rfl) ?_
        simp only [loopHead, ne_eq, not_true_eq_false, if_false]
        exact rfl
      · simp only [hl, if_false]
        refine stepOK_mark t m _ _ owns CONTENDED (Or.inr rfl) howner ?_
        simp only [loopHead, ne_eq, hl, not_false_eq_true, if_true]
        trivial
    case reXchg abs =>
      simp only [threadStep, atomic_exchange, Option.some.injEq, Prod.mk.injEq] at h
      obtain ⟨rfl, rfl, rfl⟩ := h
      by_cases hl : m.lock = UNLOCKED
      · simp only [hl, if_true]
        refine stepOK_acquire t m _ _ owns CONTENDED hl (Or.inr rfl) ?_
        simp only [loopHead, ne_eq, not_true_eq_false, if_false]
        exact rfl
      · simp only [hl, if_false]
        refine stepOK_mark t m _ _ owns CONTENDED (Or.inr rfl) howner ?_
        simp only [loopHead, ne_eq, hl, not_false_eq_true, if_true]
        trivial
    case setOwner =>
      simp only [threadStep, Option.some.injEq, Prod.mk.injEq] at h
      obtain ⟨rfl, rfl, rfl⟩ := h
      have ho : owns = true := hpc
      subst ho
      exact stepOK_owner t m _ _ (some t) hlock (hown rfl) (Or.inl rfl) (fun _ => rfl)
    case loopSetOwner =>
      simp only [threadStep, Option.some.injEq, Prod.mk.injEq] at h
      obtain ⟨rfl, rfl, rfl⟩ := h
      have ho : owns = true := hpc
      subst ho
      exact stepOK_owner t m _ _ (some t) hlock (hown rfl) (Or.inl rfl) (fun _ => rfl)
    case retLock code =>
      simp only [threadStep, Option.some.injEq, Prod.mk.injEq] at h
      obtain ⟨rfl, rfl, rfl⟩ := h
      exact stepOK_move t _ _ _ _ hlock hown howner trivial
    case retUnlock code =>
      simp only [threadStep, Option.some.injEq, Prod.mk.injEq] at h
      obtain ⟨rfl, rfl, rfl⟩ := h
      exact stepOK_move t _ _ _ _ hlock hown howner trivial
    case unSignal =>
      simp only [threadStep, Option.some.injEq, Prod.mk.injEq] at h
      obtain ⟨rfl, rfl, rfl⟩ := h
      exact stepOK_move t _ _ _ _ hlock hown howner trivial
    case unReadOwner =>
      simp only [threadStep] at h
      split_ifs at h with h1 h2 h3 <;> simp only [Option.some.injEq, Prod.mk.injEq] at h <;>
        obtain ⟨rfl, rfl, rfl⟩ := h
      · exact stepOK_move t _ _ _ _ hlock hown howner trivial
      · exact stepOK_move t _ _ _ _ hlock hown howner trivial
      · exact stepOK_move t _ _ _ _ hlock hown howner (howner (not_not.mp h1))
      · exact stepOK_move t _ _ _ _ hlock hown howner (howner (not_not.mp h1))
    case unReadOwner2 =>
      simp only [threadStep] at h
      split_ifs at h <;> simp only [Option.some.injEq, Prod.mk.injEq] at h <;>
        obtain ⟨rfl, rfl, rfl⟩ := h
      · exact stepOK_move t _ _ _ _ hlock hown howner trivial
      · exact stepOK_move t _ _ _ _ hlock hown howner trivial
    case unReadCount =>
      have ho : owns = true := hpc
      simp only [threadStep] at h
      split_ifs at h <;> simp only [Option.some.injEq, Prod.mk.injEq] at h <;>
        obtain ⟨rfl, rfl, rfl⟩ := h <;>
        exact stepOK_move t _ _ _ _ hlock hown howner ho
    case unDecCount =>
      simp only [threadStep, Option.some.injEq, Prod.mk.injEq] at h
      obtain ⟨rfl, rfl, rfl⟩ := h
      exact stepOK_count t _ _ _ _ _ hlock hown howner trivial
    case unClearOwner =>
      simp only [threadStep, Option.some.injEq, Prod.mk.injEq] at h
      obtain ⟨rfl, rfl, rfl⟩ := h
      have ho : owns = true := hpc
      subst ho
      exact stepOK_owner t m _ _ none hlock (hown rfl) (Or.inr rfl) ⟨rfl, by simp⟩
    case unFetchSub =>
      obtain ⟨ho, hno⟩ : owns = true ∧ m.owner ≠ some t := hpc
      have hl : m.lock ≠ UNLOCKED := hown ho
      simp only [threadStep, atomic_fetch_sub] at h
      rcases hl12 hl with h1 | h2
      · have e1 : wrapInt (m.lock - 1) = UNLOCKED := by rw [h1]; decide
        have e2 : ¬ (m.lock ≠ UNLOCKED + 1) := by rw [h1]; decide
        simp only [e1, e2, if_false, Option.some.injEq, Prod.mk.injEq] at h
        obtain ⟨rfl, rfl, rfl⟩ := h
        exact stepOK_release t m _ _ owns (Or.inl rfl) hno ho trivial
      · have e1 : wrapInt (m.lock - 1) = LOCKED := by rw [h2]; decide
        have e2 : m.lock ≠ UNLOCKED + 1 := by rw [h2]; decide
        simp only [e1, ne_eq, e2, not_false_eq_true, if_true, Option.some.injEq, Prod.mk.injEq] at h
        obtain ⟨rfl, rfl, rfl⟩ := h
        exact stepOK_mark t m _ _ owns LOCKED (Or.inl rfl) howner ⟨ho, hno⟩
    case unStore =>
      obtain ⟨ho, hno⟩ : owns = true ∧ m.owner ≠ some t := hpc
      simp only [threadStep, Option.some.injEq, Prod.mk.injEq] at h
      obtain ⟨rfl, rfl, rfl⟩ := h
      exact stepOK_release t m _ _ owns (Or.inr rfl) hno ho trivial

theorem step_eq (P : Platform) (t : Tid) (a : Action) (s s2 : Sys)
    (h : step P t a s = some s2) :
    ∃ m2 th2 ab, threadStep P t s.mutex (s.thr t) a = some (m2, th2, ab) ∧
      s2 = { mutex := m2, thr := Function.update s.thr t th2, aborted := ab } := by
  unfold step at h
  split_ifs at h
  cases hts : threadStep P t s.mutex (s.thr t) a with
  | none => simp [hts] at h
  | some r =>
    obtain ⟨m2, th2, ab⟩ := r
    simp only [hts, Option.some.injEq] at h
    exact ⟨m2, th2, ab, rfl, h.symm⟩

theorem inv_init (m0 : pthread_mutex) (hl : m0.lock = UNLOCKED) (ho : m0.owner = none) :
    Inv (initSys m0) := by
  refine ⟨Or.inl hl, ?_, fun _ _ => rfl, ?_, fun _ => trivial⟩
  · intro t u h
    exact absurd h (by simp [initSys])
  · intro t h
    simp [initSys, ho] at h

theorem inv_step (P : Platform) (t : Tid) (a : Action) (s s2 : Sys) (hi : Inv s)
    (h : step P t a s = some s2) : Inv s2 := by
  obtain ⟨m2, th2, ab, hts, rfl⟩ := step_eq P t a s s2 h
  obtain ⟨i1, i2, i3, i4, i5⟩ := hi
  have hown : (s.thr t).owns = true → s.mutex.lock ≠ UNLOCKED := by
    intro h1 h2
    have := i3 h2 t
    rw [h1] at this
    exact absurd this (by simp)
  obtain ⟨c1, c2, c3, c4, c5, c6, c7, _⟩ :=
    threadStep_ok P t s.mutex (s.thr t) a m2 th2 ab hts i1 (i5 t) hown (i4 t)
  have hne : ∀ u, u ≠ t → Function.update s.thr t th2 u = s.thr u :=
    fun u hu => Function.update_noteq hu _ _
  have heq : Function.update s.thr t th2 t = th2 := Function.update_same _ _ _
  refine ⟨c1, ?_, ?_, ?_, ?_⟩
  · intro u v hu hv
    simp only at hu hv
    by_cases hut : u = t <;> by_cases hvt : v = t
    · rw [hut, hvt]
    · subst hut
      rw [heq] at hu
      rw [hne v hvt] at hv
      cases hto : (s.thr u).owns with
      | true => exact i2 u v hto hv
      | false =>
        have := i3 (c5 hu hto) v
        rw [hv] at this
        exact absurd this (by simp)
    · subst hvt
      rw [heq] at hv
      rw [hne u hut] at hu
      cases hto : (s.thr v).owns with
      | true => exact i2 u v hu hto
      | false =>
        have := i3 (c5 hv hto) u
        rw [hu] at this
        exact absurd this (by simp)
    · rw [hne u hut] at hu
      rw [hne v hvt] at hv
      exact i2 u v hu hv
  · intro hl u
    simp only at hl ⊢
    by_cases hut : u = t
    · subst hut
      rw [heq]
      cases hto : th2.owns with
      | true => exact absurd hl (c3 hto)
      | false => rfl
    · rw [hne u hut]
      rcases c6 hl with h1 | h1
      · exact i3 h1 u
      · cases huo : (s.thr u).owns with
        | true => exact absurd (i2 u t huo h1) hut
        | false => rfl
  · intro u ho
    simp only at ho ⊢
    by_cases hut : u = t
    · subst hut
      rw [heq]
      exact c4 ho
    · rw [hne u hut]
      exact i4 u (c7 u hut ho)
  · intro u
    simp only
    by_cases hut : u = t
    · subst hut
      rw [heq]
      exact c2
    · rw [hne u hut]
      exact pcOK_of_owner s.mutex m2 u _ (c7 u hut) (i5 u)

theorem inv_reachable (P : Platform) (m0 : pthread_mutex) (hl : m0.lock = UNLOCKED)
    (ho : m0.owner = none) (s : Sys) (hr : Reachable P m0 s) : Inv s := by
  induction hr with
  | init => exact inv_init m0 hl ho
  | step s s2 t a _ hs ih => exact inv_step P t a s s2 ih hs

theorem init_fresh (P : Platform) (old : Handle) (attr : Option pthread_mutex_attr)
    (m0 : pthread_mutex) (h : pthread_mutex_init P true old attr = (0, some m0)) :
    m0.lock = UNLOCKED ∧ m0.owner = none ∧ m0.count = 0 := by
  simp only [pthread_mutex_init, Bool.not_true, Bool.false_eq_true, if_false, Prod.mk.injEq,
    Option.some.injEq, true_and] at h
  subst h
  cases attr <;> exact ⟨rfl, rfl, rfl⟩

/-- C1. Mutual exclusion: in every state reached from a freshly created mutex
by any interleaving of the steps of lock, trylock, timedlock and unlock calls
of any threads, at most one thread owns the mutex, where a thread owns the
mutex from the atomic operation by which its acquisition takes the lock word
from `UNLOCKED` until the write by which its releasing unlock brings the lock
word back to `UNLOCKED`.  A thread whose lock, trylock or timedlock call
returns 0 owns the mutex, the thread recorded in `owner` owns it, an owned
mutex is not `UNLOCKED`, and ownership ends in no other way than by the
thread's own release in `pthread_mutex_unlock`. -/
theorem mutual_exclusion (P : Platform) (old : Handle) (attr : Option pthread_mutex_attr)
    (m0 : pthread_mutex) (hfresh : pthread_mutex_init P true old attr = (0, some m0))
    (s : Sys) (hr : Reachable P m0 s) :
    (∀ t u, (s.thr t).owns = true → (s.thr u).owns = true → t = u) ∧
    (∀ t, (s.thr t).pc = .retLock 0 → (s.thr t).owns = true) ∧
    (∀ t, s.mutex.owner = some t → (s.thr t).owns = true) ∧
    (∀ t, (s.thr t).owns = true → s.mutex.lock ≠ UNLOCKED) ∧
    (∀ t a s2, step P t a s = some s2 →
      ∀ u, (s.thr u).owns = true → (s2.thr u).owns = false →
        u = t ∧ ((s.thr t).pc = .unFetchSub ∨ (s.thr t).pc = .unStore) ∧
        s2.mutex.lock = UNLOCKED) := by
  obtain ⟨hl, ho, _⟩ := init_fresh P old attr m0 hfresh
  have hi := inv_reachable P m0 hl ho s hr
  obtain ⟨i1, i2, i3, i4, i5⟩ := hi
  have hown : ∀ t, (s.thr t).owns = true → s.mutex.lock ≠ UNLOCKED := by
    intro t h1 h2
    have := i3 h2 t
    rw [h1] at this
    exact absurd this (by simp)
  refine ⟨i2, ?_, i4, hown, ?_⟩
  · intro t hpc
    have := i5 t
    unfold pcOK at this
    rw [hpc] at this
    exact this rfl
  · intro t a s2 hs u hu hu2
    obtain ⟨m2, th2, ab, hts, rfl⟩ := step_eq P t a s s2 hs
    obtain ⟨_, _, _, _, _, _, _, c8⟩ :=
      threadStep_ok P t s.mutex (s.thr t) a m2 th2 ab hts i1 (i5 t) (hown t) (i4 t)
    simp only at hu2 ⊢
    by_cases hut : u = t
    · subst hut
      rw [Function.update_same] at hu2
      obtain ⟨h1, h2⟩ := c8 hu hu2
      exact ⟨rfl, h2, h1⟩
    · rw [Function.update_noteq hut] at hu2
      rw [hu] at hu2
      exact absurd hu2 (by simp)

theorem reachable_runSchedule (P : Platform) (m0 : pthread_mutex) :
    ∀ (l : List (Tid × Action)) (s s2 : Sys), Reachable P m0 s →
      runSchedule P l s = some s2 → Reachable P m0 s2 := by
  intro l
  induction l with
  | nil =>
    intro s s2 hr h
    simp only [runSchedule, Option.some.injEq] at h
    exact h ▸ hr
  | cons x rest ih =>
    intro s s2 hr h
    obtain ⟨t, a⟩ := x
    simp only [runSchedule] at h
    cases hs : step P t a s with
    | none => simp [hs] at h
    | some s3 =>
      simp only [hs] at h
      exact ih s3 s2 (Reachable.step s s3 t a hr hs) h

theorem reachable_getD (P : Platform) (m0 : pthread_mutex) (l : List (Tid × Action)) :
    Reachable P m0 ((runSchedule P l (initSys m0)).getD (initSys m0)) := by
  cases h : runSchedule P l (initSys m0) with
  | none => exact Reachable.init
  | some s2 => exact reachable_runSchedule P m0 l _ s2 Reachable.init h

theorem mutual_exclusion_witness :
    ((sampleRun.thr 1).pc = .retLock 0 ∧ (sampleRun.thr 1).owns = true ∧
      (sampleRun.thr 2).pc = .semWait none ∧ sampleRun.mutex.lock = CONTENDED) ∧
    (∀ t u, (sampleRun.thr t).owns = true → (sampleRun.thr u).owns = true → t = u) :=
  ⟨by decide,
    (mutual_exclusion samplePlatform none none sampleMutex rfl sampleRun
      (reachable_getD samplePlatform sampleMutex sampleSchedule)).1⟩

/-! ## Agreement of the step model with the functions

A thread that runs a call alone, one step of `threadStep` at a time, ends with
the outcome and the mutex computed by `timedlockBody` and
`pthread_mutex_unlock`. -/

theorem soloReaches_retLock (P : Platform) (t : Tid) (m : pthread_mutex) (owns : Bool)
    (code : Int) (waits : List Int) :
    soloReaches P t m { pc := .retLock code, owns := owns } waits (.ret code, m) :=
  ⟨1, rfl⟩

theorem soloReaches_retUnlock (P : Platform) (t : Tid) (m : pthread_mutex) (owns : Bool)
    (code : Int) (waits : List Int) :
    soloReaches P t m { pc := .retUnlock code, owns := owns } waits (.ret code, m) :=
  ⟨1, rfl⟩

theorem soloReaches_tau (P : Platform) (t : Tid) (m m2 : pthread_mutex) (th th2 : Thr)
    (waits : List Int) (r : Outcome × pthread_mutex)
    (hl : ∀ c, th.pc ≠ .retLock c) (hu : ∀ c, th.pc ≠ .retUnlock c)
    (h : threadStep P t m th .tau = some (m2, th2, false))
    (hr : soloReaches P t m2 th2 waits r) : soloReaches P t m th waits r := by
  obtain ⟨n, hn⟩ := hr
  refine ⟨n + 1, ?_⟩
  obtain ⟨pc, owns⟩ := th
  cases pc
  case retLock c => exact absurd rfl (hl c)
  case retUnlock c => exact absurd rfl (hu c)
  case trySelfWait => simp [threadStep] at h
  case semWait => simp [threadStep] at h
  all_goals simp only [soloRun, h, Bool.false_eq_true, if_false, hn]

theorem soloReaches_abort (P : Platform) (t : Tid) (m m2 : pthread_mutex) (th th2 : Thr)
    (waits : List Int)
    (hl : ∀ c, th.pc ≠ .retLock c) (hu : ∀ c, th.pc ≠ .retUnlock c)
    (h : threadStep P t m th .tau = some (m2, th2, true)) :
    soloReaches P t m th waits (.abort, m2) := by
  refine ⟨1, ?_⟩
  obtain ⟨pc, owns⟩ := th
  cases pc
  case retLock c => exact absurd rfl (hl c)
  case retUnlock c => exact absurd rfl (hu c)
  case trySelfWait => simp [threadStep] at h
  case semWait => simp [threadStep] at h
  all_goals simp only [soloRun, h, if_true]

theorem soloReaches_afterTrylock (P : Platform) (t : Tid) (m : pthread_mutex) (owns : Bool)
    (trywait : Bool) (abs : Option timespec) (error : Int) (waits : List Int)
    (h : error ≠ P.EBUSY ∨ trywait = true) :
    soloReaches P t m { pc := afterTrylock P trywait abs error, owns := owns } waits
      (.ret error, m) := by
  have : afterTrylock P trywait abs error = .retLock error := by
    unfold afterTrylock
    rw [if_pos h]
  rw [this]
  exact soloReaches_retLock P t m owns error waits

/-- The blocking loop of a thread running alone agrees with `waitLoop`. -/
theorem soloReaches_waitLoop (P : Platform) (t : Tid) (abs : Option timespec) (spins : Nat) :
    ∀ (waits : List Int) (m : pthread_mutex) (lock : Int) (sem : List SemCall) (owns : Bool),
      ∃ m2, (waitLoop P t abs spins m lock sem waits).mutexp = some (some m2) ∧
        soloReaches P t m { pc := loopHead abs lock, owns := owns } waits
          ((waitLoop P t abs spins m lock sem waits).outcome, m2) := by
  intro waits
  induction waits with
  | nil =>
    intro m lock sem owns
    by_cases hl : lock = UNLOCKED
    · refine ⟨{ m with owner := some t }, by simp [waitLoop, hl], ?_⟩
      simp only [waitLoop, hl, ne_eq, not_true_eq_false, if_false, loopHead]
      exact soloReaches_tau P t m _ _ _ [] _ (by simp) (by simp) rfl
        (soloReaches_retLock P t _ owns 0 [])
    · refine ⟨m, by simp [waitLoop, hl], ?_⟩
      simp only [waitLoop, hl, ne_eq, not_false_eq_true, if_true, loopHead]
      exact ⟨1, rfl⟩
  | cons e rest ih =>
    intro m lock sem owns
    by_cases hl : lock = UNLOCKED
    · refine ⟨{ m with owner := some t }, by simp [waitLoop, hl], ?_⟩
      simp only [waitLoop, hl, ne_eq, not_true_eq_false, if_false, loopHead]
      exact soloReaches_tau P t m _ _ _ _ _ (by simp) (by simp) rfl
        (soloReaches_retLock P t _ owns 0 _)
    · by_cases he : e = P.ETIMEDOUT
      · refine ⟨m, by simp [waitLoop, hl, he], ?_⟩
        simp only [waitLoop, hl, ne_eq, not_false_eq_true, if_true, loopHead, he]
        exact ⟨2, by simp [soloRun, threadStep]⟩
      · obtain ⟨m2, h1, n, hn⟩ := ih { m with lock := CONTENDED } m.lock
          (sem ++ [.lock, .wait abs, .unlock]) (if m.lock = UNLOCKED then true else owns)
        refine ⟨m2, by simpa [waitLoop, hl, he, atomic_exchange] using h1, ?_⟩
        simp only [waitLoop, hl, ne_eq, not_false_eq_true, if_true, loopHead, he, if_false,
          atomic_exchange]
        refine ⟨n + 2, ?_⟩
        simp only [soloRun, threadStep, he, if_false, Bool.false_eq_true, atomic_exchange]
        exact hn

theorem soloReaches_spin (P : Platform) (t : Tid) (m : pthread_mutex) (owns : Bool)
    (abs : Option timespec) (waits : List Int) (r : Outcome × pthread_mutex)
    (hl : m.lock ≠ UNLOCKED)
    (hr : soloReaches P t m { pc := .cas abs, owns := owns } waits r) :
    ∀ (k i : Nat), i + k = SPIN_COUNT →
      soloReaches P t m { pc := .spin abs i, owns := owns } waits r := by
  intro k
  induction k with
  | zero =>
    intro i hi
    have h1 : ¬ i < SPIN_COUNT := by omega
    exact soloReaches_tau P t m m _ { pc := .cas abs, owns := owns } waits r (by simp) (by simp)
      (by simp [threadStep, h1]) hr
  | succ k ih =>
    intro i hi
    have h1 : i < SPIN_COUNT := by omega
    exact soloReaches_tau P t m m _ { pc := .spin abs (i + 1), owns := owns } waits r
      (by simp) (by simp) (by simp [threadStep, h1, hl]) (ih (i + 1) (by omega))

/-- A lock, trylock or timedlock call run by a thread alone, step by step,
ends as `timedlockBody` says. -/
theorem solo_timedlockBody (P : Platform) (t : Tid) (m : pthread_mutex) (trywait : Bool)
    (abs : Option timespec) (waits : List Int) (owns : Bool) :
    ∃ m2, (timedlockBody P t m trywait abs waits).mutexp = some (some m2) ∧
      soloReaches P t m { pc := .tryCas trywait abs, owns := owns } waits
        ((timedlockBody P t m trywait abs waits).outcome, m2) := by
  have ht := P.types_ne
  have h0 := P.errno_ne
  have hb0 : ¬ (0 : Int) = P.EBUSY := fun e => h0.2.2.2.1 e.symm
  have hbd : ¬ P.EDEADLK = P.EBUSY := fun e => h0.2.2.2.2.2.2.2.2.2.2.2.1 e.symm
  have hbt : ¬ P.ETIMEDOUT = P.EBUSY := fun e => h0.2.2.2.2.2.2.2.2.2.2.2.2 e.symm
  have hba : ¬ P.EAGAIN = P.EBUSY := fun e => h0.2.2.2.2.2.2.2.2.1 e.symm
  by_cases hl : m.lock = UNLOCKED
  · refine ⟨{ m with lock := LOCKED, owner := some t }, ?_, 3, ?_⟩ <;>
      simp [timedlockBody, _rthread_mutex_trylock, atomic_compare_exchange_strong, hl, hb0,
        soloRun, threadStep, afterTrylock]
  by_cases ho : m.owner = some t
  swap
  · cases trywait
    · rw [timedlockBody_blocking P t m abs waits hl ho]
      have pre : ∀ r, soloReaches P t m { pc := .cas abs, owns := owns } waits r →
          soloReaches P t m { pc := .tryCas false abs, owns := owns } waits r := by
        intro r hr
        refine soloReaches_tau P t m m _ { pc := .tryReadOwner false abs, owns := owns } waits _
          (by simp) (by simp) (by simp [threadStep, atomic_compare_exchange_strong, hl]) ?_
        refine soloReaches_tau P t m m _ { pc := .spin abs 0, owns := owns } waits _
          (by simp) (by simp) (by simp [threadStep, ho, afterTrylock]) ?_
        exact soloReaches_spin P t m owns abs waits _ hl hr SPIN_COUNT 0 (by simp)
      by_cases h2c : m.lock = CONTENDED
      · have hm2 : ({ m with lock := CONTENDED } : pthread_mutex) = m := by
          cases m; simp_all
        rw [hm2]
        obtain ⟨m2, h1, h2⟩ := soloReaches_waitLoop P t abs SPIN_COUNT waits m m.lock [] owns
        refine ⟨m2, h1, pre _ ?_⟩
        have hc : ¬ CONTENDED = UNLOCKED := by decide
        exact soloReaches_tau P t m m _ { pc := loopHead abs m.lock, owns := owns } waits _
          (by simp) (by simp)
          (by simp [threadStep, atomic_compare_exchange_strong, h2c, hc, hm2]) h2
      · obtain ⟨m2, h1, h2⟩ := soloReaches_waitLoop P t abs SPIN_COUNT waits
          { m with lock := CONTENDED } m.lock [] (if m.lock = UNLOCKED then true else owns)
        refine ⟨m2, h1, pre _ ?_⟩
        refine soloReaches_tau P t m m _ { pc := .xchg abs, owns := owns } waits _
          (by simp) (by simp)
          (by simp [threadStep, atomic_compare_exchange_strong, hl, h2c]) ?_
        exact soloReaches_tau P t m { m with lock := CONTENDED } _
          { pc := loopHead abs m.lock, owns := if m.lock = UNLOCKED then true else owns }
          waits _ (by simp) (by simp) (by simp [threadStep, atomic_exchange]) h2
    · refine ⟨m, ?_, 3, ?_⟩ <;>
        simp [timedlockBody, _rthread_mutex_trylock, atomic_compare_exchange_strong, hl, ho,
          soloRun, threadStep, afterTrylock]
  obtain ⟨l, o, c, ty, pcl⟩ := m
  simp only at hl ho
  subst ho
  by_cases hr : ty = P.PTHREAD_MUTEX_RECURSIVE
  · by_cases hc : c = INT_MAX
    · refine ⟨{ lock := l, owner := some t, count := c, type := ty, prioceiling := pcl }, ?_, 8, ?_⟩ <;>
        simp [timedlockBody, _rthread_mutex_trylock, atomic_compare_exchange_strong, hl, hr,
          hc, hba, soloRun, threadStep, afterTrylock]
    · refine ⟨{ lock := l, owner := some t, count := c + 1, type := ty,
                prioceiling := pcl }, ?_, 8, ?_⟩ <;>
        simp [timedlockBody, _rthread_mutex_trylock, atomic_compare_exchange_strong, hl, hr,
          hc, hb0, soloRun, threadStep, afterTrylock]
  cases trywait
  swap
  · refine ⟨{ lock := l, owner := some t, count := c, type := ty, prioceiling := pcl }, ?_, 8, ?_⟩ <;>
      simp [timedlockBody, _rthread_mutex_trylock, atomic_compare_exchange_strong, hl, hr,
        soloRun, threadStep, afterTrylock]
  by_cases he : ty = P.PTHREAD_MUTEX_ERRORCHECK
  · have hr2 : ¬ P.PTHREAD_MUTEX_ERRORCHECK = P.PTHREAD_MUTEX_RECURSIVE := ht.1
    refine ⟨{ lock := l, owner := some t, count := c, type := ty, prioceiling := pcl }, ?_, 8, ?_⟩ <;>
      simp [timedlockBody, _rthread_mutex_trylock, atomic_compare_exchange_strong, hl, hr2,
        he, hbd, soloRun, threadStep, afterTrylock]
  by_cases hs : ty = P.PTHREAD_MUTEX_STRICT_NP ∧ abs = none
  · have hr2 : ¬ P.PTHREAD_MUTEX_STRICT_NP = P.PTHREAD_MUTEX_RECURSIVE :=
      fun e => ht.2.2.2.2.1 e.symm
    have he2 : ¬ P.PTHREAD_MUTEX_STRICT_NP = P.PTHREAD_MUTEX_ERRORCHECK :=
      fun e => ht.2.2.1 e.symm
    refine ⟨{ lock := l, owner := some t, count := c, type := ty, prioceiling := pcl }, ?_, 8, ?_⟩ <;>
      simp [timedlockBody, _rthread_mutex_trylock, atomic_compare_exchange_strong, hl, hr2,
        he2, hs.1, hs.2, soloRun, threadStep, afterTrylock]
  · cases waits with
    | nil =>
      refine ⟨{ lock := l, owner := some t, count := c, type := ty, prioceiling := pcl }, ?_, 8, ?_⟩ <;>
        simp [timedlockBody, _rthread_mutex_trylock, atomic_compare_exchange_strong, hl, hr,
          he, hs, soloRun, threadStep, afterTrylock]
    | cons w rest =>
      refine ⟨{ lock := l, owner := some t, count := c, type := ty, prioceiling := pcl }, ?_, 8, ?_⟩ <;>
        simp [timedlockBody, _rthread_mutex_trylock, atomic_compare_exchange_strong, hl, hr,
          he, hs, hbt, soloRun, threadStep, afterTrylock]

/-- An unlock call run by a thread alone, step by step, ends as
`pthread_mutex_unlock` says. -/
theorem solo_unlock (P : Platform) (t : Tid) (m : pthread_mutex) (owns : Bool) :
    ∃ m2, (pthread_mutex_unlock P t (some (some m))).mutexp = some (some m2) ∧
      soloReaches P t m { pc := .unReadOwner, owns := owns } []
        ((pthread_mutex_unlock P t (some (some m))).outcome, m2) := by
  obtain ⟨l, o, c, ty, pcl⟩ := m
  by_cases ho : o = some t
  swap
  · by_cases h1 : ty = P.PTHREAD_MUTEX_ERRORCHECK ∨ ty = P.PTHREAD_MUTEX_RECURSIVE
    · refine ⟨{ lock := l, owner := o, count := c, type := ty, prioceiling := pcl }, ?_, 8, ?_⟩ <;> simp [pthread_mutex_unlock, ho, h1, soloRun, threadStep]
    · by_cases h2 : o = none ∧ ty = P.PTHREAD_MUTEX_NORMAL
      · obtain ⟨h3, h4⟩ := h2
        subst h3 h4
        simp only [not_or] at h1
        refine ⟨{ lock := l, owner := none, count := c, type := P.PTHREAD_MUTEX_NORMAL,
                  prioceiling := pcl }, ?_, 8, ?_⟩ <;>
          simp [pthread_mutex_unlock, h1, soloRun, threadStep]
      · refine ⟨{ lock := l, owner := o, count := c, type := ty, prioceiling := pcl }, ?_, 8, ?_⟩ <;> simp [pthread_mutex_unlock, ho, h1, h2, soloRun, threadStep]
  subst ho
  by_cases hty : ty = P.PTHREAD_MUTEX_RECURSIVE
  · by_cases hc : c > 0
    · refine ⟨{ lock := l, owner := some t, count := c - 1, type := ty,
                prioceiling := pcl }, ?_, 8, ?_⟩ <;>
        simp [pthread_mutex_unlock, hty, hc, soloRun, threadStep]
    · by_cases hl : l = UNLOCKED + 1
      · refine ⟨{ lock := wrapInt (l - 1), owner := none, count := c, type := ty,
                  prioceiling := pcl }, ?_, 8, ?_⟩ <;>
          simp [pthread_mutex_unlock, hty, hc, hl, atomic_fetch_sub, soloRun, threadStep]
      · refine ⟨{ lock := UNLOCKED, owner := none, count := c, type := ty,
                  prioceiling := pcl }, ?_, 8, ?_⟩ <;>
          simp [pthread_mutex_unlock, hty, hc, hl, atomic_fetch_sub, soloRun, threadStep]
  · by_cases hl : l = UNLOCKED + 1
    · refine ⟨{ lock := wrapInt (l - 1), owner := none, count := c, type := ty,
                prioceiling := pcl }, ?_, 8, ?_⟩ <;>
        simp [pthread_mutex_unlock, hty, hl, atomic_fetch_sub, soloRun, threadStep]
    · refine ⟨{ lock := UNLOCKED, owner := none, count := c, type := ty,
                prioceiling := pcl }, ?_, 8, ?_⟩ <;>
        simp [pthread_mutex_unlock, hty, hl, atomic_fetch_sub, soloRun, threadStep]

/-! ## The recursion limit, lazy construction and creation -/

theorem timedlock_recursive_inc (P : Platform) (t : Tid) (calloc_ok : Bool) (m : pthread_mutex)
    (trywait : Bool) (abs : Option timespec) (timed : Bool) (waits : List Int)
    (htype : m.type = P.PTHREAD_MUTEX_RECURSIVE) (hheld : m.lock ≠ UNLOCKED)
    (hown : m.owner = some t) (hc : m.count ≠ INT_MAX) :
    _rthread_mutex_timedlock P t calloc_ok (some (some m)) trywait abs timed waits =
      { outcome := .ret 0, mutexp := some (some { m with count := m.count + 1 }),
        sem := [], spins := 0 } := by
  have h0 := P.errno_ne
  have hb : ¬ (0 : Int) = P.EBUSY := fun e => h0.2.2.2.1 e.symm
  obtain ⟨l, o, c, ty, pc⟩ := m
  simp only at htype hheld hown hc
  subst htype hown
  simp [_rthread_mutex_timedlock, timedlockBody, _rthread_mutex_trylock,
    atomic_compare_exchange_strong, hheld, hc, hb]

theorem timedlock_recursive_max (P : Platform) (t : Tid) (calloc_ok : Bool) (m : pthread_mutex)
    (trywait : Bool) (abs : Option timespec) (timed : Bool) (waits : List Int)
    (htype : m.type = P.PTHREAD_MUTEX_RECURSIVE) (hheld : m.lock ≠ UNLOCKED)
    (hown : m.owner = some t) (hc : m.count = INT_MAX) :
    _rthread_mutex_timedlock P t calloc_ok (some (some m)) trywait abs timed waits =
      { outcome := .ret P.EAGAIN, mutexp := some (some m), sem := [], spins := 0 } := by
  have h0 := P.errno_ne
  have hb : ¬ P.EAGAIN = P.EBUSY := fun e => h0.2.2.2.2.2.2.2.2.1 e.symm
  obtain ⟨l, o, c, ty, pc⟩ := m
  simp only at htype hheld hown hc
  subst htype hown hc
  simp [_rthread_mutex_timedlock, timedlockBody, _rthread_mutex_trylock,
    atomic_compare_exchange_strong, hheld, hb]

/-- C11. Recursion limit: on a RECURSIVE mutex held by the caller, each of
lock, trylock and timedlock returns 0 and adds exactly 1 to count when count
is below `INT_MAX`, and returns `EAGAIN` leaving every field unchanged when
count equals `INT_MAX`; neither makes a call into the blocking primitive, and
a count within the range of `int` stays within it. -/
theorem recursion_limit (P : Platform) (t : Tid) (calloc_ok : Bool) (m : pthread_mutex)
    (abs : Option timespec) (waits : List Int)
    (htype : m.type = P.PTHREAD_MUTEX_RECURSIVE) (hheld : m.lock ≠ UNLOCKED)
    (hown : m.owner = some t) :
    (m.count < INT_MAX →
      pthread_mutex_lock P t calloc_ok (some (some m)) waits =
        { outcome := .ret 0, mutexp := some (some { m with count := m.count + 1 }),
          sem := [], spins := 0 } ∧
      pthread_mutex_trylock P t calloc_ok (some (some m)) waits =
        { outcome := .ret 0, mutexp := some (some { m with count := m.count + 1 }),
          sem := [], spins := 0 } ∧
      pthread_mutex_timedlock P t calloc_ok (some (some m)) abs waits =
        { outcome := .ret 0, mutexp := some (some { m with count := m.count + 1 }),
          sem := [], spins := 0 } ∧
      m.count + 1 ≤ INT_MAX) ∧
    (m.count = INT_MAX →
      pthread_mutex_lock P t calloc_ok (some (some m)) waits =
        { outcome := .ret P.EAGAIN, mutexp := some (some m), sem := [], spins := 0 } ∧
      pthread_mutex_trylock P t calloc_ok (some (some m)) waits =
        { outcome := .ret P.EAGAIN, mutexp := some (some m), sem := [], spins := 0 } ∧
      pthread_mutex_timedlock P t calloc_ok (some (some m)) abs waits =
        { outcome := .ret P.EAGAIN, mutexp := some (some m), sem := [], spins := 0 }) := by
  constructor
  · intro hlt
    have hc : m.count ≠ INT_MAX := fun e => by rw [e] at hlt; exact lt_irrefl _ hlt
    exact ⟨timedlock_recursive_inc P t calloc_ok m false none false waits htype hheld hown hc,
      timedlock_recursive_inc P t calloc_ok m true none false waits htype hheld hown hc,
      timedlock_recursive_inc P t calloc_ok m false abs true waits htype hheld hown hc,
      by omega⟩
  · intro hc
    exact ⟨timedlock_recursive_max P t calloc_ok m false none false waits htype hheld hown hc,
      timedlock_recursive_max P t calloc_ok m true none false waits htype hheld hown hc,
      timedlock_recursive_max P t calloc_ok m false abs true waits htype hheld hown hc⟩

theorem recursion_limit_witness :
    pthread_mutex_trylock samplePlatform 3 true
        (some (some { lock := 1, owner := some 3, count := 2147483647, type := 2,
                      prioceiling := -1 })) [] =
      { outcome := .ret 11
        mutexp := some (some { lock := 1, owner := some 3, count := 2147483647, type := 2,
                               prioceiling := -1 })
        sem := [], spins := 0 } :=
  ((recursion_limit samplePlatform 3 true
    { lock := 1, owner := some 3, count := 2147483647, type := 2, prioceiling := -1 } none []
    rfl (by decide) rfl).2 rfl).2.1

theorem timedlock_lazy (P : Platform) (t : Tid) (trywait : Bool) (abs : Option timespec)
    (timed : Bool) (waits : List Int) :
    _rthread_mutex_timedlock P t true (some none) trywait abs timed waits =
      { outcome := .ret 0
        mutexp := some (some { lock := LOCKED, owner := some t, count := 0,
                               type := P.PTHREAD_MUTEX_DEFAULT, prioceiling := -1 })
        sem := [], spins := 0 } := by
  have h0 := P.errno_ne
  have hb : ¬ (0 : Int) = P.EBUSY := fun e => h0.2.2.2.1 e.symm
  simp [_rthread_mutex_timedlock, pthread_mutex_init, timedlockBody, _rthread_mutex_trylock,
    atomic_compare_exchange_strong, UNLOCKED, hb]

theorem timedlock_lazy_fail (P : Platform) (t : Tid) (trywait : Bool) (abs : Option timespec)
    (timed : Bool) (waits : List Int) :
    _rthread_mutex_timedlock P t false (some none) trywait abs timed waits =
      { outcome := .ret P.EINVAL, mutexp := some none, sem := [], spins := 0 } := by
  have h0 := P.errno_ne
  simp [_rthread_mutex_timedlock, pthread_mutex_init, h0.2.2.1]

/-- C12. Lazy construction: on a handle holding the null sentinel, when the
allocation succeeds, each of lock, trylock and timedlock returns 0 and leaves
in the handle a mutex of type `PTHREAD_MUTEX_DEFAULT` (NORMAL, the default the
spec gives), prioceiling -1, count 0, owner the caller and lock word `LOCKED`,
without any call into the blocking primitive. -/
theorem lazy_construction (P : Platform) (t : Tid) (abs : Option timespec) (waits : List Int)
    (hdef : defaultIsNormal P) :
    pthread_mutex_lock P t true (some none) waits =
      { outcome := .ret 0
        mutexp := some (some { lock := LOCKED, owner := some t, count := 0,
                               type := P.PTHREAD_MUTEX_NORMAL, prioceiling := -1 })
        sem := [], spins := 0 } ∧
    pthread_mutex_trylock P t true (some none) waits =
      { outcome := .ret 0
        mutexp := some (some { lock := LOCKED, owner := some t, count := 0,
                               type := P.PTHREAD_MUTEX_NORMAL, prioceiling := -1 })
        sem := [], spins := 0 } ∧
    pthread_mutex_timedlock P t true (some none) abs waits =
      { outcome := .ret 0
        mutexp := some (some { lock := LOCKED, owner := some t, count := 0,
                               type := P.PTHREAD_MUTEX_NORMAL, prioceiling := -1 })
        sem := [], spins := 0 } := by
  unfold defaultIsNormal at hdef
  rw [← hdef]
  exact ⟨timedlock_lazy P t false none false waits, timedlock_lazy P t true none false waits,
    timedlock_lazy P t false abs true waits⟩

theorem lazy_construction_witness :
    pthread_mutex_lock samplePlatform 5 true (some none) [] =
      { outcome := .ret 0
        mutexp := some (some { lock := 1, owner := some 5, count := 0, type := 3,
                               prioceiling := -1 })
        sem := [], spins := 0 } :=
  (lazy_construction samplePlatform 5 none [] rfl).1

/-- C13, as the code has it: when lock, trylock or timedlock is called on a
handle holding the null sentinel and the allocation of the lazy construction
fails, the call returns `EINVAL` (line 158) and the handle still holds the
null sentinel. -/
theorem lazy_init_failure (P : Platform) (t : Tid) (abs : Option timespec) (waits : List Int) :
    pthread_mutex_lock P t false (some none) waits =
      { outcome := .ret P.EINVAL, mutexp := some none, sem := [], spins := 0 } ∧
    pthread_mutex_trylock P t false (some none) waits =
      { outcome := .ret P.EINVAL, mutexp := some none, sem := [], spins := 0 } ∧
    pthread_mutex_timedlock P t false (some none) abs waits =
      { outcome := .ret P.EINVAL, mutexp := some none, sem := [], spins := 0 } :=
  ⟨timedlock_lazy_fail P t false none false waits, timedlock_lazy_fail P t true none false waits,
    timedlock_lazy_fail P t false abs true waits⟩

/-- C13, as stated, fails: with a failing allocation `pthread_mutex_lock` on a
null handle returns `EINVAL` (22 on the sample platform), not `ENOMEM` (12). -/
theorem lazy_init_failure_not_enomem :
    (pthread_mutex_lock samplePlatform 1 false (some none) []).outcome = .ret 22 ∧
    (pthread_mutex_lock samplePlatform 1 false (some none) []).outcome ≠
      .ret samplePlatform.ENOMEM := by
  decide

theorem timedlock_self_wait (P : Platform) (t : Tid) (calloc_ok : Bool) (m : pthread_mutex)
    (abs : Option timespec) (timed : Bool) (e : Int) (rest : List Int)
    (htype : m.type ≠ P.PTHREAD_MUTEX_RECURSIVE ∧ m.type ≠ P.PTHREAD_MUTEX_ERRORCHECK ∧
      ¬ (m.type = P.PTHREAD_MUTEX_STRICT_NP ∧ abs = none))
    (hheld : m.lock ≠ UNLOCKED) (hown : m.owner = some t) :
    _rthread_mutex_timedlock P t calloc_ok (some (some m)) false abs timed (e :: rest) =
      { outcome := .ret P.ETIMEDOUT, mutexp := some (some m),
        sem := [.lock, .wait abs, .unlock], spins := 0 } := by
  have h0 := P.errno_ne
  have hbt : ¬ P.ETIMEDOUT = P.EBUSY := fun e => h0.2.2.2.2.2.2.2.2.2.2.2.2 e.symm
  obtain ⟨l, o, c, ty, pc⟩ := m
  simp only at htype hheld hown
  subst hown
  obtain ⟨h1, h2, h3⟩ := htype
  simp [_rthread_mutex_timedlock, timedlockBody, _rthread_mutex_trylock,
    atomic_compare_exchange_strong, hheld, h1, h2, h3, hbt]

/-- C14. Bounded self-deadlock: on a NORMAL or STRICT mutex held by the caller,
a timedlock with a deadline calls the semaphore `lock, wait, unlock` once and
returns `ETIMEDOUT` whatever the wait returned; the mutex is unchanged. -/
theorem bounded_self_deadlock (P : Platform) (t : Tid) (calloc_ok : Bool) (m : pthread_mutex)
    (d : timespec) (e : Int) (rest : List Int)
    (htype : m.type = P.PTHREAD_MUTEX_NORMAL ∨ m.type = P.PTHREAD_MUTEX_STRICT_NP)
    (hheld : m.lock ≠ UNLOCKED) (hown : m.owner = some t) :
    pthread_mutex_timedlock P t calloc_ok (some (some m)) (some d) (e :: rest) =
      { outcome := .ret P.ETIMEDOUT, mutexp := some (some m),
        sem := [.lock, .wait (some d), .unlock], spins := 0 } := by
  have ht := P.types_ne
  refine timedlock_self_wait P t calloc_ok m (some d) true e rest ⟨?_, ?_, ?_⟩ hheld hown
  · rcases htype with h | h <;> rw [h]
    · exact fun e => ht.2.2.2.1 e.symm
    · exact fun e => ht.2.2.2.2.1 e.symm
  · rcases htype with h | h <;> rw [h]
    · exact fun e => ht.2.1 e.symm
    · exact fun e => ht.2.2.1 e.symm
  · rintro ⟨_, h⟩
    exact Option.noConfusion h

theorem bounded_self_deadlock_witness :
    pthread_mutex_timedlock samplePlatform 3 true
        (some (some { lock := 1, owner := some 3, count := 0, type := 4, prioceiling := -1 }))
        (some { tv_sec := 5, tv_nsec := 0 }) [0] =
      { outcome := .ret 116
        mutexp := some (some { lock := 1, owner := some 3, count := 0, type := 4,
                               prioceiling := -1 })
        sem := [.lock, .wait (some { tv_sec := 5, tv_nsec := 0 }), .unlock], spins := 0 } :=
  bounded_self_deadlock samplePlatform 3 true
    { lock := 1, owner := some 3, count := 0, type := 4, prioceiling := -1 }
    { tv_sec := 5, tv_nsec := 0 } 0 [] (Or.inr rfl) (by decide) rfl

/-- C15, as the code has it: on an ERRORCHECK mutex held by the caller,
`pthread_mutex_trylock` returns `EBUSY` (line 112 with `trywait` set), makes no
call into the blocking primitive and leaves the mutex unchanged. -/
theorem errorcheck_trylock (P : Platform) (t : Tid) (calloc_ok : Bool) (m : pthread_mutex)
    (waits : List Int) (htype : m.type = P.PTHREAD_MUTEX_ERRORCHECK)
    (hheld : m.lock ≠ UNLOCKED) (hown : m.owner = some t) :
    pthread_mutex_trylock P t calloc_ok (some (some m)) waits =
      { outcome := .ret P.EBUSY, mutexp := some (some m), sem := [], spins := 0 } := by
  have ht := P.types_ne
  obtain ⟨l, o, c, ty, pc⟩ := m
  simp only at htype hheld hown
  subst htype hown
  simp [pthread_mutex_trylock, _rthread_mutex_timedlock, timedlockBody,
    _rthread_mutex_trylock, atomic_compare_exchange_strong, hheld, ht.1]

theorem errorcheck_trylock_witness :
    pthread_mutex_trylock samplePlatform 3 true
        (some (some { lock := 1, owner := some 3, count := 0, type := 1, prioceiling := -1 }))
        [] =
      { outcome := .ret 16
        mutexp := some (some { lock := 1, owner := some 3, count := 0, type := 1,
                               prioceiling := -1 })
        sem := [], spins := 0 } :=
  errorcheck_trylock samplePlatform 3 true
    { lock := 1, owner := some 3, count := 0, type := 1, prioceiling := -1 } []
    rfl (by decide) rfl

/-- C15, as stated, fails: `pthread_mutex_trylock` on an ERRORCHECK mutex held
by the caller returns `EBUSY` (16 on the sample platform), not `EDEADLK`
(45). -/
theorem errorcheck_trylock_not_edeadlk :
    (pthread_mutex_trylock samplePlatform 3 true
        (some (some { lock := 1, owner := some 3, count := 0, type := 1, prioceiling := -1 }))
        []).outcome = .ret 16 ∧
    (pthread_mutex_trylock samplePlatform 3 true
        (some (some { lock := 1, owner := some 3, count := 0, type := 1, prioceiling := -1 }))
        []).outcome ≠ .ret samplePlatform.EDEADLK := by
  decide

/-- C16. Create: when the allocation succeeds `pthread_mutex_init` returns 0
and stores a mutex with lock word `UNLOCKED`, no owner and count 0; without
attributes its type is `PTHREAD_MUTEX_DEFAULT` and its prioceiling -1, with
attributes its type is `ma_type` and its prioceiling is `ma_prioceiling` when
`ma_protocol` is `PTHREAD_PRIO_PROTECT` and -1 otherwise.  When the allocation
fails it returns `ENOMEM` and the handle keeps its contents. -/
theorem create (P : Platform) (old : Handle) (attr : Option pthread_mutex_attr) :
    pthread_mutex_init P true old none =
      (0, some { lock := UNLOCKED, owner := none, count := 0,
                 type := P.PTHREAD_MUTEX_DEFAULT, prioceiling := -1 }) ∧
    (∀ a : pthread_mutex_attr,
      pthread_mutex_init P true old (some a) =
        (0, some { lock := UNLOCKED, owner := none, count := 0, type := a.ma_type,
                   prioceiling := if a.ma_protocol = P.PTHREAD_PRIO_PROTECT
                     then a.ma_prioceiling else -1 })) ∧
    pthread_mutex_init P false old attr = (P.ENOMEM, old) := by
  refine ⟨rfl, fun a => rfl, rfl⟩

/-! ## The state after a whole call -/

theorem waitLoop_mutexp (P : Platform) (t : Tid) (abs : Option timespec) (spins : Nat)
    (m : pthread_mutex) (hm : m.lock = CONTENDED) :
    ∀ (waits : List Int) (lock : Int) (sem : List SemCall), lock ≠ UNLOCKED →
      (waitLoop P t abs spins m lock sem waits).mutexp = some (some m) := by
  have hmm : ({ m with lock := CONTENDED } : pthread_mutex) = m := by
    cases m; simp_all
  have hc : CONTENDED ≠ UNLOCKED := by decide
  intro waits
  induction waits with
  | nil =>
    intro lock sem hl
    simp [waitLoop, hl]
  | cons e rest ih =>
    intro lock sem hl
    by_cases he : e = P.ETIMEDOUT
    · simp [waitLoop, hl, he]
    · simp only [waitLoop, ne_eq, hl, not_false_eq_true, if_true, he, if_false, atomic_exchange,
        hm, hmm]
      exact ih CONTENDED _ hc

/-- The mutex a lock, trylock or timedlock call leaves, whatever its outcome. -/
theorem timedlockBody_mutexp (P : Platform) (t : Tid) (m : pthread_mutex) (trywait : Bool)
    (abs : Option timespec) (waits : List Int) :
    ∃ m2, (timedlockBody P t m trywait abs waits).mutexp = some (some m2) ∧
      ((m.lock = UNLOCKED ∧ m2 = { m with lock := LOCKED, owner := some t }) ∨
       (m.lock ≠ UNLOCKED ∧
         (m2 = m ∨ m2 = { m with lock := CONTENDED } ∨
           (m.count ≠ INT_MAX ∧ m2 = { m with count := m.count + 1 })))) := by
  have ht := P.types_ne
  have h0 := P.errno_ne
  have hb0 : ¬ (0 : Int) = P.EBUSY := fun e => h0.2.2.2.1 e.symm
  have hbd : ¬ P.EDEADLK = P.EBUSY := fun e => h0.2.2.2.2.2.2.2.2.2.2.2.1 e.symm
  have hbt : ¬ P.ETIMEDOUT = P.EBUSY := fun e => h0.2.2.2.2.2.2.2.2.2.2.2.2 e.symm
  have hba : ¬ P.EAGAIN = P.EBUSY := fun e => h0.2.2.2.2.2.2.2.2.1 e.symm
  by_cases hl : m.lock = UNLOCKED
  · refine ⟨{ m with lock := LOCKED, owner := some t }, ?_, Or.inl ⟨hl, rfl⟩⟩
    simp [timedlockBody, _rthread_mutex_trylock, atomic_compare_exchange_strong, hl, hb0]
  by_cases ho : m.owner = some t
  swap
  · cases trywait
    · refine ⟨{ m with lock := CONTENDED }, ?_, Or.inr ⟨hl, Or.inr (Or.inl rfl)⟩⟩
      rw [timedlockBody_blocking P t m abs waits hl ho]
      exact waitLoop_mutexp P t abs SPIN_COUNT _ rfl waits m.lock [] hl
    · refine ⟨m, ?_, Or.inr ⟨hl, Or.inl rfl⟩⟩
      simp [timedlockBody, _rthread_mutex_trylock, atomic_compare_exchange_strong, hl, ho]
  obtain ⟨l, o, c, ty, pcl⟩ := m
  simp only at hl ho
  subst ho
  by_cases hr : ty = P.PTHREAD_MUTEX_RECURSIVE
  · by_cases hc : c = INT_MAX
    · refine ⟨_, ?_, Or.inr ⟨hl, Or.inl rfl⟩⟩
      simp [timedlockBody, _rthread_mutex_trylock, atomic_compare_exchange_strong, hl, hr, hc,
        hba]
    · refine ⟨{ lock := l, owner := some t, count := c + 1, type := ty, prioceiling := pcl },
        ?_, Or.inr ⟨hl, Or.inr (Or.inr ⟨hc, rfl⟩)⟩⟩
      simp [timedlockBody, _rthread_mutex_trylock, atomic_compare_exchange_strong, hl, hr, hc,
        hb0]
  refine ⟨_, ?_, Or.inr ⟨hl, Or.inl rfl⟩⟩
  cases trywait
  swap
  · simp [timedlockBody, _rthread_mutex_trylock, atomic_compare_exchange_strong, hl, hr]
  by_cases he : ty = P.PTHREAD_MUTEX_ERRORCHECK
  · have hr2 : ¬ P.PTHREAD_MUTEX_ERRORCHECK = P.PTHREAD_MUTEX_RECURSIVE := ht.1
    simp [timedlockBody, _rthread_mutex_trylock, atomic_compare_exchange_strong, hl, hr2, he,
      hbd]
  by_cases hs : ty = P.PTHREAD_MUTEX_STRICT_NP ∧ abs = none
  · have hr2 : ¬ P.PTHREAD_MUTEX_STRICT_NP = P.PTHREAD_MUTEX_RECURSIVE :=
      fun e => ht.2.2.2.2.1 e.symm
    have he2 : ¬ P.PTHREAD_MUTEX_STRICT_NP = P.PTHREAD_MUTEX_ERRORCHECK :=
      fun e => ht.2.2.1 e.symm
    simp [timedlockBody, _rthread_mutex_trylock, atomic_compare_exchange_strong, hl, hr2, he2,
      hs.1, hs.2]
  · cases waits with
    | nil =>
      simp [timedlockBody, _rthread_mutex_trylock, atomic_compare_exchange_strong, hl, hr, he,
        hs]
    | cons w rest =>
      simp [timedlockBody, _rthread_mutex_trylock, atomic_compare_exchange_strong, hl, hr, he,
        hs, hbt]

/-- The mutex an unlock call leaves, whatever its outcome. -/
theorem unlock_mutexp (P : Platform) (t : Tid) (m : pthread_mutex) :
    ∃ m2, (pthread_mutex_unlock P t (some (some m))).mutexp = some (some m2) ∧
      (m2 = m ∨ (m.count > 0 ∧ m2 = { m with count := m.count - 1 }) ∨
        m2 = { m with owner := none, lock := UNLOCKED }) := by
  by_cases ho : m.owner = some t
  swap
  · refine ⟨m, ?_, Or.inl rfl⟩
    simp only [pthread_mutex_unlock, ne_eq, ho, not_false_eq_true, if_true]
    split_ifs <;> rfl
  by_cases hr : m.type = P.PTHREAD_MUTEX_RECURSIVE ∧ m.count > 0
  · refine ⟨{ m with count := m.count - 1 }, ?_, Or.inr (Or.inl ⟨hr.2, rfl⟩)⟩
    simp [pthread_mutex_unlock, ho, hr]
  · refine ⟨{ m with owner := none, lock := UNLOCKED }, ?_, Or.inr (Or.inr rfl)⟩
    rw [unlock_owner_release P t m ho hr]

theorem runCall_mutexp (P : Platform) (t : Tid) (calloc_ok : Bool) (c : Call)
    (m : pthread_mutex) (waits : List Int) :
    ∃ m2, (runCall P t calloc_ok c m waits).mutexp = some (some m2) ∧
      ((m.lock = UNLOCKED ∧ m2 = { m with lock := LOCKED, owner := some t }) ∨
        m2 = m ∨ (m.lock ≠ UNLOCKED ∧ m2 = { m with lock := CONTENDED }) ∨
        (m.count ≠ INT_MAX ∧ m2 = { m with count := m.count + 1 }) ∨
        (m.count > 0 ∧ m2 = { m with count := m.count - 1 }) ∨
        m2 = { m with owner := none, lock := UNLOCKED }) := by
  have lockCase : ∀ (trywait : Bool) (abs : Option timespec),
      ∃ m2, (timedlockBody P t m trywait abs waits).mutexp = some (some m2) ∧
      ((m.lock = UNLOCKED ∧ m2 = { m with lock := LOCKED, owner := some t }) ∨
        m2 = m ∨ (m.lock ≠ UNLOCKED ∧ m2 = { m with lock := CONTENDED }) ∨
        (m.count ≠ INT_MAX ∧ m2 = { m with count := m.count + 1 }) ∨
        (m.count > 0 ∧ m2 = { m with count := m.count - 1 }) ∨
        m2 = { m with owner := none, lock := UNLOCKED }) := by
    intro trywait abs
    obtain ⟨m2, h1, h2⟩ := timedlockBody_mutexp P t m trywait abs waits
    refine ⟨m2, h1, ?_⟩
    rcases h2 with h | ⟨hl, h | h | h⟩
    · exact Or.inl h
    · exact Or.inr (Or.inl h)
    · exact Or.inr (Or.inr (Or.inl ⟨hl, h⟩))
    · exact Or.inr (Or.inr (Or.inr (Or.inl h)))
  cases c with
  | lock => exact lockCase false none
  | trylock => exact lockCase true none
  | timedlock abs => exact lockCase false abs
  | unlock =>
    obtain ⟨m2, h1, h2⟩ := unlock_mutexp P t m
    refine ⟨m2, h1, ?_⟩
    rcases h2 with h | h | h
    · exact Or.inr (Or.inl h)
    · exact Or.inr (Or.inr (Or.inr (Or.inr (Or.inl h))))
    · exact Or.inr (Or.inr (Or.inr (Or.inr (Or.inr h))))

theorem callInv_runCall (P : Platform) (t : Tid) (calloc_ok : Bool) (c : Call)
    (m m2 : pthread_mutex) (waits : List Int) (hi : callInv m)
    (h : (runCall P t calloc_ok c m waits).mutexp = some (some m2)) : callInv m2 := by
  obtain ⟨m3, h1, h2⟩ := runCall_mutexp P t calloc_ok c m waits
  rw [h1] at h
  have e : m3 = m2 := Option.some.inj (Option.some.inj h)
  subst e
  obtain ⟨i1, i2, i3, i4⟩ := hi
  have hL : LOCKED ≠ UNLOCKED := by decide
  have hC : CONTENDED ≠ UNLOCKED := by decide
  rcases h2 with ⟨_, rfl⟩ | rfl | ⟨hl, rfl⟩ | ⟨hc, rfl⟩ | ⟨hc, rfl⟩ | rfl
  · exact ⟨Or.inr (Or.inl rfl), fun _ => hL, i3, i4⟩
  · exact ⟨i1, i2, i3, i4⟩
  · exact ⟨Or.inr (Or.inr rfl), fun _ => hC, i3, i4⟩
  · refine ⟨i1, i2, ?_, ?_⟩
    · show 0 ≤ m.count + 1
      omega
    · show m.count + 1 ≤ INT_MAX
      omega
  · refine ⟨i1, i2, ?_, ?_⟩
    · show 0 ≤ m.count - 1
      omega
    · show m.count - 1 ≤ INT_MAX
      omega
  · exact ⟨Or.inl rfl, fun h => absurd rfl h, i3, i4⟩

/-! ## The state invariant over whole calls -/

theorem callInv_fresh (P : Platform) (old : Handle) (attr : Option pthread_mutex_attr)
    (m0 : pthread_mutex) (h : pthread_mutex_init P true old attr = (0, some m0)) :
    callInv m0 := by
  simp only [pthread_mutex_init, Bool.not_true, Bool.false_eq_true, if_false, Prod.mk.injEq,
    Option.some.injEq, true_and] at h
  subst h
  have hmax : (0 : Int) ≤ INT_MAX := by decide
  cases attr <;> exact ⟨Or.inl rfl, fun h => absurd rfl h, le_refl _, hmax⟩

theorem callInv_reachable (P : Platform) (m0 : pthread_mutex) (h0 : callInv m0)
    (m : pthread_mutex) (hr : CallReachable P m0 m) : callInv m := by
  induction hr with
  | init => exact h0
  | call m m2 t calloc_ok c waits code _ _ hm ih =>
    exact callInv_runCall P t calloc_ok c m m2 waits ih hm

/-- C17. State invariant: in every state reached from a freshly created mutex
by finitely many lock, trylock, timedlock and unlock calls that return a code,
made by any threads with any wait results, the lock word is `UNLOCKED`,
`LOCKED` or `CONTENDED`, there is an owner only when the lock word is not
`UNLOCKED`, and count is at least 0. -/
theorem state_invariant (P : Platform) (old : Handle) (attr : Option pthread_mutex_attr)
    (m0 : pthread_mutex) (hfresh : pthread_mutex_init P true old attr = (0, some m0))
    (m : pthread_mutex) (hr : CallReachable P m0 m) :
    (m.lock = UNLOCKED ∨ m.lock = LOCKED ∨ m.lock = CONTENDED) ∧
    (m.owner ≠ none → m.lock ≠ UNLOCKED) ∧
    m.count ≥ 0 := by
  obtain ⟨h1, h2, h3, _⟩ :=
    callInv_reachable P m0 (callInv_fresh P old attr m0 hfresh) m hr
  exact ⟨h1, h2, h3⟩

theorem state_invariant_witness :
    (({ lock := 1, owner := some 1, count := 0, type := 3, prioceiling := -1 } :
        pthread_mutex).lock = UNLOCKED ∨
      ({ lock := 1, owner := some 1, count := 0, type := 3, prioceiling := -1 } :
        pthread_mutex).lock = LOCKED ∨
      ({ lock := 1, owner := some 1, count := 0, type := 3, prioceiling := -1 } :
        pthread_mutex).lock = CONTENDED) :=
  (state_invariant samplePlatform none none sampleMutex rfl
    { lock := 1, owner := some 1, count := 0, type := 3, prioceiling := -1 }
    (CallReachable.call sampleMutex _ 1 true .lock [] 0 CallReachable.init
      (by decide) (by decide))).1

/-! ## Type and prioceiling never change -/

theorem threadStep_attributes (P : Platform) (t : Tid) (m : pthread_mutex) (th : Thr)
    (a : Action) (m2 : pthread_mutex) (th2 : Thr) (ab : Bool)
    (h : threadStep P t m th a = some (m2, th2, ab)) :
    m2.type = m.type ∧ m2.prioceiling = m.prioceiling := by
  obtain ⟨pc, owns⟩ := th
  cases a with
  | call c =>
    cases pc <;> cases c <;> simp [threadStep] at h
    all_goals
      obtain ⟨rfl, rfl, rfl⟩ := h
      exact ⟨rfl, rfl⟩
  | wait e =>
    cases pc <;> simp [threadStep] at h
    · obtain ⟨rfl, rfl, rfl⟩ := h
      exact ⟨rfl, rfl⟩
    · split_ifs at h <;> simp only [Option.some.injEq, Prod.mk.injEq] at h <;>
        obtain ⟨rfl, rfl, rfl⟩ := h <;> exact ⟨rfl, rfl⟩
  | tau =>
    cases pc <;>
      simp only [threadStep, atomic_compare_exchange_strong, atomic_exchange,
        atomic_fetch_sub] at h
    all_goals (try split_ifs at h)
    all_goals (try simp only [Option.some.injEq, Prod.mk.injEq, reduceCtorEq] at h)
    all_goals (try (obtain ⟨rfl, rfl, rfl⟩ := h))
    all_goals (first | exact ⟨rfl, rfl⟩)

theorem reachable_attributes (P : Platform) (m0 : pthread_mutex) (s : Sys)
    (hr : Reachable P m0 s) :
    s.mutex.type = m0.type ∧ s.mutex.prioceiling = m0.prioceiling := by
  induction hr with
  | init => exact ⟨rfl, rfl⟩
  | step s s2 t a _ hs ih =>
    obtain ⟨m2, th2, ab, hts, rfl⟩ := step_eq P t a s s2 hs
    obtain ⟨h1, h2⟩ := threadStep_attributes P t s.mutex (s.thr t) a m2 th2 ab hts
    exact ⟨h1.trans ih.1, h2.trans ih.2⟩

/-- C19. Attribute immutability: a lock, trylock, timedlock or unlock call of
any thread on a constructed mutex, whatever its outcome, leaves a mutex whose
type and prioceiling are those from before the call; and in the interleaved
execution the type and prioceiling are in every reachable state those of the
initial mutex. -/
theorem attribute_immutability (P : Platform) (t : Tid) (calloc_ok : Bool) (c : Call)
    (m : pthread_mutex) (waits : List Int) :
    (∃ m2, (runCall P t calloc_ok c m waits).mutexp = some (some m2) ∧
      m2.type = m.type ∧ m2.prioceiling = m.prioceiling) ∧
    (∀ s, Reachable P m s →
      s.mutex.type = m.type ∧ s.mutex.prioceiling = m.prioceiling) := by
  refine ⟨?_, reachable_attributes P m⟩
  obtain ⟨m2, h1, h2⟩ := runCall_mutexp P t calloc_ok c m waits
  refine ⟨m2, h1, ?_⟩
  rcases h2 with ⟨_, rfl⟩ | rfl | ⟨_, rfl⟩ | ⟨_, rfl⟩ | ⟨_, rfl⟩ | rfl <;> exact ⟨rfl, rfl⟩

theorem attribute_immutability_witness :
    sampleRun.mutex.type = 3 ∧ sampleRun.mutex.prioceiling = -1 :=
  (attribute_immutability samplePlatform 1 true .lock sampleMutex []).2 sampleRun
    (reachable_getD samplePlatform sampleMutex sampleSchedule)

/-! ## The blocking path under interleaving -/

theorem threadStep_contended (P : Platform) (u : Tid) (m : pthread_mutex) (th : Thr)
    (a : Action) (m2 : pthread_mutex) (th2 : Thr) (ab : Bool)
    (h : threadStep P u m th a = some (m2, th2, ab)) (hl : m.lock = CONTENDED) :
    m2.lock = CONTENDED ∨ (th.pc = .unFetchSub ∧ th2.pc = .unStore) ∨
      (th.pc = .unStore ∧ th2.pc = .unSignal) := by
  have hc : ¬ CONTENDED = UNLOCKED := by decide
  have hc1 : CONTENDED ≠ UNLOCKED + 1 := by decide
  obtain ⟨pc, owns⟩ := th
  obtain ⟨l, o, c, ty, pcl⟩ := m
  simp only at hl
  subst hl
  cases a with
  | call c =>
    cases pc <;> cases c <;> simp [threadStep] at h
    all_goals
      obtain ⟨rfl, rfl, rfl⟩ := h
      exact Or.inl rfl
  | wait e =>
    cases pc <;> simp [threadStep] at h
    · obtain ⟨rfl, rfl, rfl⟩ := h
      exact Or.inl rfl
    · split_ifs at h <;> simp only [Option.some.injEq, Prod.mk.injEq] at h <;>
        obtain ⟨rfl, rfl, rfl⟩ := h <;> exact Or.inl rfl
  | tau =>
    cases pc <;>
      simp only [threadStep, atomic_compare_exchange_strong, atomic_exchange, atomic_fetch_sub,
        hc, if_false, ne_eq, hc1, not_false_eq_true, if_true] at h
    all_goals (try split_ifs at h)
    all_goals (try simp only [Option.some.injEq, Prod.mk.injEq, reduceCtorEq] at h)
    all_goals (try (obtain ⟨rfl, rfl, rfl⟩ := h))
    all_goals (first
      | exact Or.inl rfl
      | exact Or.inr (Or.inl ⟨rfl, rfl⟩)
      | exact Or.inr (Or.inr ⟨rfl, rfl⟩))

theorem afterTrylock_ne_loop (P : Platform) (trywait : Bool) (abs : Option timespec)
    (error : Int) : afterTrylock P trywait abs error ≠ .loopSetOwner := by
  unfold afterTrylock
  split_ifs <;> simp

/-- The program point of line 212 is entered only by an exchange that returns
`UNLOCKED`, which leaves the lock word `CONTENDED`. -/
theorem threadStep_loop_entry (P : Platform) (u : Tid) (m : pthread_mutex) (th : Thr)
    (a : Action) (m2 : pthread_mutex) (th2 : Thr) (ab : Bool)
    (h : threadStep P u m th a = some (m2, th2, ab)) (h2 : th2.pc = .loopSetOwner) :
    (∃ abs, th.pc = .xchg abs ∨ th.pc = .reXchg abs) ∧ m.lock = UNLOCKED ∧
      m2.lock = CONTENDED ∧ th2.owns = true := by
  obtain ⟨pc, owns⟩ := th
  have hat := afterTrylock_ne_loop P
  cases a with
  | call c =>
    cases pc <;> cases c <;> simp [threadStep] at h
    all_goals
      obtain ⟨rfl, rfl, rfl⟩ := h
      simp at h2
  | wait e =>
    cases pc <;> simp [threadStep] at h
    · obtain ⟨rfl, rfl, rfl⟩ := h
      exact absurd h2 (hat _ _ _)
    · split_ifs at h <;> simp only [Option.some.injEq, Prod.mk.injEq] at h <;>
        obtain ⟨rfl, rfl, rfl⟩ := h <;> simp at h2
  | tau =>
    cases pc
    case xchg abs =>
      simp only [threadStep, atomic_exchange, Option.some.injEq, Prod.mk.injEq] at h
      obtain ⟨rfl, rfl, rfl⟩ := h
      by_cases hl : m.lock = UNLOCKED
      · exact ⟨⟨abs, Or.inl rfl⟩, hl, rfl, by simp [hl]⟩
      · simp [loopHead, hl] at h2
    case reXchg abs =>
      simp only [threadStep, atomic_exchange, Option.some.injEq, Prod.mk.injEq] at h
      obtain ⟨rfl, rfl, rfl⟩ := h
      by_cases hl : m.lock = UNLOCKED
      · exact ⟨⟨abs, Or.inr rfl⟩, hl, rfl, by simp [hl]⟩
      · simp [loopHead, hl] at h2
    case cas abs =>
      simp only [threadStep, atomic_compare_exchange_strong] at h
      by_cases hl : m.lock = UNLOCKED
      · simp only [hl, if_true, Option.some.injEq, Prod.mk.injEq] at h
        obtain ⟨rfl, rfl, rfl⟩ := h
        simp at h2
      · simp only [hl, if_false] at h
        split_ifs at h <;> simp only [Option.some.injEq, Prod.mk.injEq] at h <;>
          obtain ⟨rfl, rfl, rfl⟩ := h
        · simp at h2
        · simp [loopHead, hl] at h2
    all_goals
      simp only [threadStep, atomic_compare_exchange_strong, atomic_fetch_sub] at h
      try split_ifs at h
      all_goals (try simp only [Option.some.injEq, Prod.mk.injEq, reduceCtorEq] at h)
      all_goals (try (obtain ⟨rfl, rfl, rfl⟩ := h))
      all_goals (first
        | exact absurd h2 (hat _ _ _)
        | simp at h2)

theorem wokenOK_init (m0 : pthread_mutex) : wokenOK (initSys m0) := by
  intro t h
  simp [initSys] at h

theorem wokenOK_step (P : Platform) (u : Tid) (a : Action) (s s2 : Sys) (hi : Inv s)
    (hw : wokenOK s) (h : step P u a s = some s2) : wokenOK s2 := by
  obtain ⟨m2, th2, ab, hts, rfl⟩ := step_eq P u a s s2 h
  intro t ht
  simp only at ht ⊢
  by_cases htu : t = u
  · subst htu
    rw [Function.update_same] at ht
    exact (threadStep_loop_entry P t s.mutex (s.thr t) a m2 th2 ab hts ht).2.2.1
  · rw [Function.update_noteq htu] at ht
    have hlock := hw t ht
    obtain ⟨_, i2, _, _, i5⟩ := hi
    have hto : (s.thr t).owns = true := by
      have := i5 t
      unfold pcOK at this
      rw [ht] at this
      exact this
    rcases threadStep_contended P u s.mutex (s.thr u) a m2 th2 ab hts hlock with h1 | h1 | h1
    · exact h1
    · have := i5 u
      unfold pcOK at this
      rw [h1.1] at this
      exact absurd (i2 t u hto this.1) htu
    · have := i5 u
      unfold pcOK at this
      rw [h1.1] at this
      exact absurd (i2 t u hto this.1) htu

theorem wokenOK_reachable (P : Platform) (m0 : pthread_mutex) (hl : m0.lock = UNLOCKED)
    (ho : m0.owner = none) (s : Sys) (hr : Reachable P m0 s) : wokenOK s := by
  induction hr with
  | init => exact wokenOK_init m0
  | step s s2 t a hr0 hs ih =>
    exact wokenOK_step P t a s s2 (inv_reachable P m0 hl ho s hr0) ih hs

theorem threadStep_cas_fail (P : Platform) (t : Tid) (m : pthread_mutex) (th : Thr)
    (a : Action) (m2 : pthread_mutex) (th2 : Thr) (ab : Bool) (abs : Option timespec)
    (h : threadStep P t m th a = some (m2, th2, ab)) (hpc : th.pc = .cas abs)
    (hl : m.lock ≠ UNLOCKED) : th2.pc = .xchg abs ∨ th2.pc = .semWait abs := by
  obtain ⟨pc, owns⟩ := th
  simp only at hpc
  subst hpc
  cases a <;> simp only [threadStep, atomic_compare_exchange_strong, hl, if_false] at h
  · rename_i c
    cases c <;> simp at h
  · simp at h
  · split_ifs at h <;> simp only [Option.some.injEq, Prod.mk.injEq] at h <;>
      obtain ⟨rfl, rfl, rfl⟩ := h
    · exact Or.inl rfl
    · exact Or.inr (by simp [loopHead, hl])

theorem threadStep_exchange (P : Platform) (t : Tid) (m : pthread_mutex) (th : Thr)
    (a : Action) (m2 : pthread_mutex) (th2 : Thr) (ab : Bool) (abs : Option timespec)
    (h : threadStep P t m th a = some (m2, th2, ab))
    (hpc : th.pc = .xchg abs ∨ th.pc = .reXchg abs) :
    m2.lock = CONTENDED ∧
    (m.lock = UNLOCKED → th2.pc = .loopSetOwner ∧ th2.owns = true) ∧
    (m.lock ≠ UNLOCKED → th2.pc = .semWait abs) := by
  obtain ⟨pc, owns⟩ := th
  simp only at hpc
  rcases hpc with rfl | rfl <;> cases a <;>
    simp only [threadStep, atomic_exchange] at h
  all_goals first
    | (rename_i c; cases c <;> simp at h)
    | (simp at h; done)
    | (simp only [Option.some.injEq, Prod.mk.injEq] at h
       obtain ⟨rfl, rfl, rfl⟩ := h
       refine ⟨rfl, fun hl => ?_, fun hl => ?_⟩
       · simp [loopHead, hl]
       · simp [loopHead, hl])

theorem threadStep_semWait (P : Platform) (t : Tid) (m : pthread_mutex) (th : Thr)
    (a : Action) (m2 : pthread_mutex) (th2 : Thr) (ab : Bool) (abs : Option timespec)
    (h : threadStep P t m th a = some (m2, th2, ab)) (hpc : th.pc = .semWait abs) :
    m2 = m ∧ ∃ e, a = .wait e ∧
      th2.pc = if e = P.ETIMEDOUT then .retLock P.ETIMEDOUT else .reXchg abs := by
  obtain ⟨pc, owns⟩ := th
  simp only at hpc
  subst hpc
  cases a with
  | call c => cases c <;> simp [threadStep] at h
  | tau => simp [threadStep] at h
  | wait e =>
    simp only [threadStep] at h
    by_cases he : e = P.ETIMEDOUT
    · simp only [he, if_true, Option.some.injEq, Prod.mk.injEq] at h
      obtain ⟨rfl, rfl, rfl⟩ := h
      exact ⟨rfl, e, rfl, by simp [he]⟩
    · simp only [he, if_false, Option.some.injEq, Prod.mk.injEq] at h
      obtain ⟨rfl, rfl, rfl⟩ := h
      exact ⟨rfl, e, rfl, by simp [he]⟩

theorem threadStep_loopSetOwner (P : Platform) (t : Tid) (m : pthread_mutex) (th : Thr)
    (a : Action) (m2 : pthread_mutex) (th2 : Thr) (ab : Bool)
    (h : threadStep P t m th a = some (m2, th2, ab)) (hpc : th.pc = .loopSetOwner) :
    th2.pc = .retLock 0 ∧ th2.owns = th.owns ∧ m2.owner = some t ∧ m2.lock = m.lock := by
  obtain ⟨pc, owns⟩ := th
  simp only at hpc
  subst hpc
  cases a with
  | call c => cases c <;> simp [threadStep] at h
  | wait e => simp [threadStep] at h
  | tau =>
    simp only [threadStep, Option.some.injEq, Prod.mk.injEq] at h
    obtain ⟨rfl, rfl, rfl⟩ := h
    exact ⟨rfl, rfl, rfl, rfl⟩

theorem threadStep_signal (P : Platform) (t : Tid) (m : pthread_mutex) (th : Thr)
    (a : Action) (m2 : pthread_mutex) (th2 : Thr) (ab : Bool)
    (h : threadStep P t m th a = some (m2, th2, ab)) :
    (th.pc = .unStore → th2.pc = .unSignal) ∧ (th.pc = .unSignal → th2.pc = .retUnlock 0) := by
  obtain ⟨pc, owns⟩ := th
  constructor <;> intro hpc <;> simp only at hpc <;> subst hpc <;> cases a
  all_goals first
    | (rename_i c; cases c <;> simp [threadStep] at h)
    | (simp [threadStep] at h; done)
    | (simp only [threadStep, Option.some.injEq, Prod.mk.injEq] at h
       obtain ⟨rfl, rfl, rfl⟩ := h
       rfl)

/-- C18. Blocking-path acquisition, in the interleaved execution from a freshly
created mutex.  A step of thread `t` behaves as follows.  A failed post-spin
compare-exchange leads to the exchange with `CONTENDED` or to the wait.  An
exchange leaves the lock word `CONTENDED`, and leads to line 212 when it
returned `UNLOCKED` and to the wait otherwise.  A wait leaves the mutex alone
and leads to the return of `ETIMEDOUT` when it timed out and to the exchange
otherwise.  Line 212 is entered in no other way than by an exchange that
returned `UNLOCKED`; there the thread records itself as owner and returns 0,
owning the mutex, with the lock word `CONTENDED`.  A `CONTENDED` lock word is
changed only by the owner in the branch of `pthread_mutex_unlock` that stores
`UNLOCKED` and signals. -/
theorem blocking_path_acquisition (P : Platform) (old : Handle)
    (attr : Option pthread_mutex_attr) (m0 : pthread_mutex)
    (hfresh : pthread_mutex_init P true old attr = (0, some m0))
    (s : Sys) (hr : Reachable P m0 s) (t : Tid) (a : Action) (s2 : Sys)
    (hs : step P t a s = some s2) (abs : Option timespec) :
    ((s.thr t).pc = .cas abs → s.mutex.lock ≠ UNLOCKED →
      ((s2.thr t).pc = .xchg abs ∨ (s2.thr t).pc = .semWait abs)) ∧
    (((s.thr t).pc = .xchg abs ∨ (s.thr t).pc = .reXchg abs) →
      s2.mutex.lock = CONTENDED ∧
      (s.mutex.lock = UNLOCKED →
        (s2.thr t).pc = .loopSetOwner ∧ (s2.thr t).owns = true) ∧
      (s.mutex.lock ≠ UNLOCKED → (s2.thr t).pc = .semWait abs)) ∧
    ((s.thr t).pc = .semWait abs →
      s2.mutex = s.mutex ∧
      ∃ e, a = .wait e ∧
        (s2.thr t).pc = if e = P.ETIMEDOUT then .retLock P.ETIMEDOUT else .reXchg abs) ∧
    ((s2.thr t).pc = .loopSetOwner →
      (∃ abs2, (s.thr t).pc = .xchg abs2 ∨ (s.thr t).pc = .reXchg abs2) ∧
      s.mutex.lock = UNLOCKED) ∧
    ((s.thr t).pc = .loopSetOwner →
      (s2.thr t).pc = .retLock 0 ∧ (s2.thr t).owns = true ∧ s2.mutex.owner = some t ∧
      s2.mutex.lock = CONTENDED) ∧
    (s.mutex.lock = CONTENDED →
      s2.mutex.lock = CONTENDED ∨
      ((s.thr t).owns = true ∧
        (((s.thr t).pc = .unFetchSub ∧ (s2.thr t).pc = .unStore) ∨
         ((s.thr t).pc = .unStore ∧ (s2.thr t).pc = .unSignal)))) ∧
    ((s.thr t).pc = .unStore → (s2.thr t).pc = .unSignal) ∧
    ((s.thr t).pc = .unSignal → (s2.thr t).pc = .retUnlock 0) := by
  obtain ⟨hl0, ho0, _⟩ := init_fresh P old attr m0 hfresh
  have hi := inv_reachable P m0 hl0 ho0 s hr
  have hw := wokenOK_reachable P m0 hl0 ho0 s hr
  obtain ⟨m2, th2, ab, hts, rfl⟩ := step_eq P t a s s2 hs
  have hth : Function.update s.thr t th2 t = th2 := Function.update_same _ _ _
  simp only [hth]
  have hpcok := hi.2.2.2.2 t
  refine ⟨?_, ?_, ?_, ?_, ?_, ?_, ?_, ?_⟩
  · intro hpc hl
    exact threadStep_cas_fail P t s.mutex (s.thr t) a m2 th2 ab abs hts hpc hl
  · intro hpc
    exact threadStep_exchange P t s.mutex (s.thr t) a m2 th2 ab abs hts hpc
  · intro hpc
    exact threadStep_semWait P t s.mutex (s.thr t) a m2 th2 ab abs hts hpc
  · intro hpc
    obtain ⟨h1, h2, _⟩ := threadStep_loop_entry P t s.mutex (s.thr t) a m2 th2 ab hts hpc
    exact ⟨h1, h2⟩
  · intro hpc
    obtain ⟨h1, h2, h3, h4⟩ :=
      threadStep_loopSetOwner P t s.mutex (s.thr t) a m2 th2 ab hts hpc
    have hto : (s.thr t).owns = true := by
      unfold pcOK at hpcok
      rw [hpc] at hpcok
      exact hpcok
    exact ⟨h1, by rw [h2, hto], h3, by rw [h4]; exact hw t hpc⟩
  · intro hl
    rcases threadStep_contended P t s.mutex (s.thr t) a m2 th2 ab hts hl with h1 | h1 | h1
    · exact Or.inl h1
    · have hto : (s.thr t).owns = true := by
        unfold pcOK at hpcok
        rw [h1.1] at hpcok
        exact hpcok.1
      exact Or.inr ⟨hto, Or.inl h1⟩
    · have hto : (s.thr t).owns = true := by
        unfold pcOK at hpcok
        rw [h1.1] at hpcok
        exact hpcok.1
      exact Or.inr ⟨hto, Or.inr h1⟩
  · exact (threadStep_signal P t s.mutex (s.thr t) a m2 th2 ab hts).1
  · exact (threadStep_signal P t s.mutex (s.thr t) a m2 th2 ab hts).2

set_option maxRecDepth 8000 in
theorem blocking_path_acquisition_witness :
    (((step samplePlatform 2 .tau wakeRun).getD wakeRun).thr 2).pc = .retLock 0 ∧
    (((step samplePlatform 2 .tau wakeRun).getD wakeRun).thr 2).owns = true ∧
    ((step samplePlatform 2 .tau wakeRun).getD wakeRun).mutex.owner = some 2 ∧
    ((step samplePlatform 2 .tau wakeRun).getD wakeRun).mutex.lock = CONTENDED :=
  (blocking_path_acquisition samplePlatform none none sampleMutex rfl wakeRun
    (reachable_getD samplePlatform sampleMutex wakeSchedule) 2 .tau
    ((step samplePlatform 2 .tau wakeRun).getD wakeRun) rfl none).2.2.2.2.1 (by decide)

/-! ## The nvmap opcodes -/

/-- C20. The nvmap ioctl opcodes: for each of the six opcodes the size field
(bits 16 to 29) is the size of its argument structure under natural alignment,
8, 8, 32, 24, 12 and 8 bytes; the direction field (bits 30 and 31) is 3; the
type byte (bits 8 to 15) is 1; and the six opcodes are pairwise distinct. -/
theorem nvmap_opcode_encoding :
    (iocSize NVMAP_IOC_CREATE = structSize nvmap_ioc_create_args ∧
      structSize nvmap_ioc_create_args = 8) ∧
    (iocSize NVMAP_IOC_FROM_ID = structSize nvmap_ioc_from_id_args ∧
      structSize nvmap_ioc_from_id_args = 8) ∧
    (iocSize NVMAP_IOC_ALLOC = structSize nvmap_ioc_alloc_args ∧
      structSize nvmap_ioc_alloc_args = 32) ∧
    (iocSize NVMAP_IOC_FREE = structSize nvmap_ioc_free_args ∧
      structSize nvmap_ioc_free_args = 24) ∧
    (iocSize NVMAP_IOC_PARAM = structSize nvmap_ioc_param_args ∧
      structSize nvmap_ioc_param_args = 12) ∧
    (iocSize NVMAP_IOC_GET_ID = structSize nvmap_ioc_get_id_args ∧
      structSize nvmap_ioc_get_id_args = 8) ∧
    (∀ op ∈ [NVMAP_IOC_CREATE, NVMAP_IOC_FROM_ID, NVMAP_IOC_ALLOC, NVMAP_IOC_FREE,
        NVMAP_IOC_PARAM, NVMAP_IOC_GET_ID], iocDir op = 3 ∧ iocType op = 1) ∧
    [NVMAP_IOC_CREATE, NVMAP_IOC_FROM_ID, NVMAP_IOC_ALLOC, NVMAP_IOC_FREE,
      NVMAP_IOC_PARAM, NVMAP_IOC_GET_ID].Nodup := by
  decide

end Rthread
